import Mathlib

/-!
# tpm2-tools: streaming PCR event digest and signature / public key conversion

A shallow embedding of

* `tpm_pcrevent_file` and `do_pcrevent_and_output` (tools/tpm2_pcrevent.c),
* `extract_ecdsa`, `pop_ecdsa`, `sig_load`, `tpm2_convert_sig_load`, `tpm2_convert_sig`,
  `convert_pubkey_RSA` (lib/tpm2_convert.c),
* `tpm2_hierarchy_from_optarg` (lib/tpm2_hierarchy.c),

followed by the properties established about them.  Bytes are natural numbers; a
buffer is the list of its first `size` bytes.
-/

namespace Tpm2Tools

/-! ## Constants of the TSS2 headers -/

/-- The capacity of `TPM2B_EVENT.buffer`, i.e. `BUFFER_SIZE(TPM2B_EVENT, buffer)`. -/
def BUFFER_SIZE_TPM2B_EVENT : Nat := 1024

/-- The capacity of `TPM2B_MAX_BUFFER.buffer`. -/
def TPM2_MAX_DIGEST_BUFFER : Nat := 1024

/-- The response code of a successful command. -/
def TSS2_RC_SUCCESS : Nat := 0

/-- The TPM-layer name of the same success code. -/
def TPM2_RC_SUCCESS : Nat := 0

/-- The handle value that stands for "no handle". -/
def ESYS_TR_NONE : Nat := 0xfff

/-- The handle value that stands for password authorisation. -/
def ESYS_TR_PASSWORD : Nat := 0x0ff

/-! ## The input stream -/

/-- A stdio stream opened for reading: the bytes not yet consumed, what follows them
(an I/O error when `fails`, the end of the file otherwise) and the two indicators
tested by `feof` and `ferror`. -/
structure FILE where
  content : List Nat
  fails : Bool
  eof : Bool
  error : Bool
deriving DecidableEq, Repr

/-- A freshly opened stream positioned at its first byte. -/
def FILE.fresh (content : List Nat) (fails : Bool) : FILE :=
  { content := content, fails := fails, eof := false, error := false }

/-- The C library call `fread(buf, 1, nmemb, f)`: delivers `nmemb` bytes, or fewer when the
stream ends or fails first, in which case the matching indicator is raised. -/
def fread (nmemb : Nat) (f : FILE) : List Nat × FILE :=
  let got := f.content.take nmemb
  (got, { content := f.content.drop nmemb,
          fails := f.fails,
          eof := f.eof || (decide (got.length < nmemb) && !f.fails),
          error := f.error || (decide (got.length < nmemb) && f.fails) })

/-- Modelled from the spec: `files_read_bytes` (files.c is not among the sources), the
"read-bytes-with-known-size" operation of the stream abstraction: it succeeds exactly when
`size` bytes could be read, and then delivers them. -/
def files_read_bytes (f : FILE) (size : Nat) : Bool × List Nat × FILE :=
  let r := fread size f
  (decide (r.1.length = size), r.1, r.2)

/-! ## The TPM as seen by `tpm_pcrevent_file` -/

/-- What `tpm_pcrevent_file` does to the outside world, in order: reads of the input and
ESAPI commands, each with the data it carried. -/
inductive Event where
  | fread (data : List Nat)
  | files_read_bytes (size : Nat) (ok : Bool)
  | Esys_PCR_Event (data : List Nat)
  | Esys_HashSequenceStart
  | Esys_TR_SetAuth
  | Esys_SequenceUpdate (data : List Nat)
  | Esys_EventSequenceComplete (data : List Nat)
deriving DecidableEq, Repr

/-- The ESAPI context: the response code of each command (which may depend on everything
that happened before), the digest set the TPM computes over an event message (for
`Esys_PCR_Event` the event data; for `Esys_EventSequenceComplete` the data the sequence has
absorbed followed by the final buffer), and the session handle found by
`tpm2_auth_util_get_shandle`. -/
structure Esys (D : Type) where
  rc : List Event → Event → Nat
  digests : List Nat → D
  shandle1 : Nat

/-- The expression of a `return` statement of `tpm_pcrevent_file`. -/
inductive Returned where
  | c_false
  | tool_rc_success
  | tool_rc_general_error
  | tool_rc_from_tpm (rval : Nat)
deriving DecidableEq, Repr

/-- What a run of `tpm_pcrevent_file` leaves behind: the returned expression, the digest set
stored through `result` (if any) and the events in order. -/
structure Outcome (D : Type) where
  rc : Returned
  result : Option D
  trace : List Event
deriving DecidableEq, Repr

/-- The bytes a hash sequence has absorbed through `Esys_SequenceUpdate`. -/
def absorbed : List Event → List Nat
  | [] => []
  | Event.Esys_SequenceUpdate d :: es => d ++ absorbed es
  | _ :: es => absorbed es

/-- The read / update loop of `tpm_pcrevent_file` (lines 107-136).  `fuel` bounds the number
of iterations; the result is `none` when it runs out, an early `return` (`Except.error`), or
the state `(left, input, trace)` in which the loop is left.  The subtraction
`left -= bytes_read` cannot wrap: it is only reached with `use_left` and `left` above 1024,
while `bytes_read` is at most 1024. -/
def update_loop {D : Type} (E : Esys D) (use_left : Bool) :
    Nat → Nat → FILE → List Event → Option (Except (Outcome D) (Nat × FILE × List Event))
  | 0, _, _, _ => none
  | fuel + 1, left, input, tr =>
    let r := fread TPM2_MAX_DIGEST_BUFFER input
    let data := r.1
    let input := r.2
    let tr := tr ++ [Event.fread data]
    if input.error then
      some (Except.error { rc := Returned.c_false, result := none, trace := tr })
    else
      let rval := E.rc tr (Event.Esys_SequenceUpdate data)
      let tr := tr ++ [Event.Esys_SequenceUpdate data]
      if rval ≠ TPM2_RC_SUCCESS then
        some (Except.error { rc := Returned.tool_rc_from_tpm rval, result := none, trace := tr })
      else if use_left then
        let left := left - data.length
        if left ≤ TPM2_MAX_DIGEST_BUFFER then
          some (Except.ok (left, input, tr))
        else
          update_loop E use_left fuel left input tr
      else if input.eof then
        some (Except.ok (left, input, tr))
      else
        update_loop E use_left fuel left input tr

/-- The trace with which the loop hands over, whether it returns early or is left. -/
def loopTrace {D : Type} : Except (Outcome D) (Nat × FILE × List Event) → List Event
  | Except.error o => o.trace
  | Except.ok st => st.2.2

/-- The function `tpm_pcrevent_file` (lines 38-163).  `size` is what `files_get_file_size`
reports (`none` when it fails, e.g. on a fifo), `input` the stream `ctx.input`. -/
def tpm_pcrevent_file {D : Type} (E : Esys D) (fuel : Nat) (size : Option Nat) (input : FILE) :
    Option (Outcome D) :=
  let res := size.isSome
  let file_size := size.getD 0
  if res && decide (file_size ≤ BUFFER_SIZE_TPM2B_EVENT) then
    let r := files_read_bytes input file_size
    let buffer := r.2.1
    let tr := [Event.files_read_bytes file_size r.1]
    if !r.1 then
      some { rc := Returned.c_false, result := none, trace := tr }
    else if E.shandle1 = ESYS_TR_NONE then
      some { rc := Returned.c_false, result := none, trace := tr }
    else
      let rval := E.rc tr (Event.Esys_PCR_Event buffer)
      let tr := tr ++ [Event.Esys_PCR_Event buffer]
      if rval ≠ TSS2_RC_SUCCESS then
        some { rc := Returned.tool_rc_from_tpm rval, result := none, trace := tr }
      else
        some { rc := Returned.tool_rc_success, result := some (E.digests buffer), trace := tr }
  else
    let rval := E.rc [] Event.Esys_HashSequenceStart
    let tr := [Event.Esys_HashSequenceStart]
    if rval ≠ TPM2_RC_SUCCESS then
      some { rc := Returned.tool_rc_from_tpm rval, result := none, trace := tr }
    else
      let rval := E.rc tr Event.Esys_TR_SetAuth
      let tr := tr ++ [Event.Esys_TR_SetAuth]
      if rval ≠ TPM2_RC_SUCCESS then
        some { rc := Returned.tool_rc_from_tpm rval, result := none, trace := tr }
      else
        let use_left := res
        match update_loop E use_left fuel file_size input tr with
        | none => none
        | some (Except.error o) => some o
        | some (Except.ok (left, input, tr)) =>
          let r := files_read_bytes input left
          let data := if use_left then r.2.1 else []
          let tr := if use_left then tr ++ [Event.files_read_bytes left r.1] else tr
          if use_left && !r.1 then
            some { rc := Returned.tool_rc_general_error, result := none, trace := tr }
          else if E.shandle1 = ESYS_TR_NONE then
            some { rc := Returned.tool_rc_general_error, result := none, trace := tr }
          else
            let rval := E.rc tr (Event.Esys_EventSequenceComplete data)
            let msg := absorbed tr ++ data
            let tr := tr ++ [Event.Esys_EventSequenceComplete data]
            if rval ≠ TSS2_RC_SUCCESS then
              some { rc := Returned.tool_rc_general_error, result := none, trace := tr }
            else
              some { rc := Returned.tool_rc_success, result := some (E.digests msg), trace := tr }

/-! ## Reading a trace -/

/-- The buffers handed to `Esys_SequenceUpdate`, in call order. -/
def updateData : List Event → List (List Nat)
  | [] => []
  | Event.Esys_SequenceUpdate d :: es => d :: updateData es
  | _ :: es => updateData es

/-- The buffers handed to `Esys_EventSequenceComplete`, in call order. -/
def completeData : List Event → List (List Nat)
  | [] => []
  | Event.Esys_EventSequenceComplete d :: es => d :: completeData es
  | _ :: es => completeData es

/-- The buffers handed to `Esys_PCR_Event`, in call order. -/
def pcrEventData : List Event → List (List Nat)
  | [] => []
  | Event.Esys_PCR_Event d :: es => d :: pcrEventData es
  | _ :: es => pcrEventData es

/-- The chunks delivered by `fread`, in call order. -/
def freadData : List Event → List (List Nat)
  | [] => []
  | Event.fread d :: es => d :: freadData es
  | _ :: es => freadData es

/-- A context in which every command succeeds and a session handle is found. -/
def okEsys : Esys (List Nat) :=
  { rc := fun _ _ => TSS2_RC_SUCCESS, digests := fun m => m, shandle1 := ESYS_TR_PASSWORD }

/-- Concatenation of a list of buffers. -/
def flat : List (List Nat) → List Nat
  | [] => []
  | u :: us => u ++ flat us

/-- The events of consecutive loop iterations that read and submitted the chunks `us`. -/
def chunkEvents : List (List Nat) → List Event
  | [] => []
  | u :: us => Event.fread u :: Event.Esys_SequenceUpdate u :: chunkEvents us

/-! ## `do_pcrevent_and_output` and the values of `tool_rc` -/

/-- The enumeration `tool_rc` and `tool_rc_from_tpm` are declared in tpm2_tool.h, which is
not among the sources: the values of the two enumerators used here and the translation of a
TPM response code are taken as given. -/
structure ToolRc where
  tool_rc_success : Nat
  tool_rc_general_error : Nat
  tool_rc_from_tpm : Nat → Nat

/-- The value a `return` expression of `tpm_pcrevent_file` has in C (`false` is 0). -/
def Returned.value (T : ToolRc) : Returned → Nat
  | Returned.c_false => 0
  | Returned.tool_rc_success => T.tool_rc_success
  | Returned.tool_rc_general_error => T.tool_rc_general_error
  | Returned.tool_rc_from_tpm rval => T.tool_rc_from_tpm rval

/-- The numbering in which `tool_rc_success` is the first enumerator of `tool_rc` (value 0,
the exit status of a successful tool) and `tool_rc_general_error` the second; a failing TPM
response code is taken to translate to `tool_rc_general_error`. -/
def tool_rc_enum : ToolRc :=
  { tool_rc_success := 0
    tool_rc_general_error := 1
    tool_rc_from_tpm := fun rval => if rval = TSS2_RC_SUCCESS then 0 else 1 }

/-- How `do_pcrevent_and_output` ends: it returns the failure code of `tpm_pcrevent_file`
before touching the digests, trips over `assert(digests)`, or prints the digest set and
returns `tool_rc_success`. -/
inductive PcrEventEnd (D : Type) where
  | returned (rc : Nat)
  | assert_failed
  | printed (digests : D)
deriving DecidableEq, Repr

/-- The function `do_pcrevent_and_output` (lines 165-225), up to the printing loop. -/
def do_pcrevent_and_output {D : Type} (T : ToolRc) (E : Esys D) (fuel : Nat)
    (size : Option Nat) (input : FILE) : Option (PcrEventEnd D) :=
  match tpm_pcrevent_file E fuel size input with
  | none => none
  | some o =>
    if o.rc.value T ≠ T.tool_rc_success then
      some (PcrEventEnd.returned (o.rc.value T))
    else
      match o.result with
      | none => some PcrEventEnd.assert_failed
      | some digests => some (PcrEventEnd.printed digests)

/-! ## OpenSSL's ASN.1 routines, as far as lib/tpm2_convert.c uses them -/

/-- The identifier-octet bit of a constructed encoding. -/
def V_ASN1_CONSTRUCTED : Nat := 0x20

/-- The universal tag number of SEQUENCE. -/
def V_ASN1_SEQUENCE : Nat := 16

/-- The universal tag number of INTEGER. -/
def V_ASN1_INTEGER : Nat := 2

/-- The tag-number bits of an identifier octet; all set means a multi-octet tag number. -/
def V_ASN1_PRIMITIVE_TAG : Nat := 0x1f

/-- The unsigned integer a byte string denotes when read big-endian (most significant byte
first), accumulated from the left as `BN_bin2bn` does. -/
def BN_bin2bn (s : List Nat) : Nat :=
  s.foldl (fun acc b => acc * 256 + b) 0

/-- Digits of `n` in base 256, most significant first, prepended to `acc`. -/
def be_bytes_aux : Nat → Nat → List Nat → List Nat
  | 0, _, acc => acc
  | fuel + 1, n, acc => if n = 0 then acc else be_bytes_aux fuel (n / 256) (n % 256 :: acc)

/-- The shortest big-endian byte string of a number (empty for 0). -/
def be_bytes (n : Nat) : List Nat := be_bytes_aux n n []

/-- The length octets written by OpenSSL's `asn1_put_length`: one octet up to 127, otherwise
`0x80 + k` followed by the `k` octets of the length. -/
def asn1_put_length (length : Nat) : List Nat :=
  if length ≤ 127 then [length]
  else (0x80 + (be_bytes length).length) :: be_bytes length

/-- The content octets `i2c_ASN1_INTEGER` writes for a non-negative `ASN1_INTEGER` whose
data was stored with `ASN1_STRING_set`: the data, preceded by a zero octet when its first
byte has the high bit set; the single octet 0 when the data is empty. -/
def i2c_ASN1_INTEGER (data : List Nat) : List Nat :=
  match data with
  | [] => [0]
  | b :: _ => if b > 127 then 0 :: data else data

/-- The encoding `i2d_ASN1_INTEGER` allocates and fills: tag, length octets, content. -/
def i2d_ASN1_INTEGER (data : List Nat) : List Nat :=
  V_ASN1_INTEGER :: (asn1_put_length (i2c_ASN1_INTEGER data).length ++ i2c_ASN1_INTEGER data)

/-- The part of the C library and of OpenSSL that `extract_ecdsa` depends on: whether
`ASN1_INTEGER_new` and `malloc` deliver, and what `i2d_ASN1_INTEGER` produces for given
data (`none` for a negative return value). -/
structure Asn1Lib where
  ASN1_INTEGER_new_ok : Bool
  i2d : List Nat → Option (List Nat)
  malloc_ok : Bool

/-- OpenSSL with every allocation succeeding. -/
def openssl : Asn1Lib :=
  { ASN1_INTEGER_new_ok := true, i2d := fun data => some (i2d_ASN1_INTEGER data), malloc_ok := true }

/-- Skips at most `i` leading zero octets of a long-form length; yields the number of octets
left to read and the rest of the input. -/
def skip_length_zeroes : Nat → List Nat → Nat × List Nat
  | i + 1, 0 :: p => skip_length_zeroes i p
  | i, p => (i, p)

/-- OpenSSL's `asn1_get_length`: `(inf, length, rest)`.  Octet 0x80 announces the indefinite
form; a long form may use at most `sizeof(long)` = 8 significant octets and must not exceed
`LONG_MAX`. -/
def asn1_get_length (p : List Nat) (max : Nat) : Option (Bool × Nat × List Nat) :=
  if max < 1 then none
  else
    match p with
    | [] => none
    | b :: p =>
      if b = 0x80 then some (true, 0, p)
      else if b < 0x80 then some (false, b, p)
      else
        let i := b % 0x80
        if max - 1 < i + 1 then none
        else
          let z := skip_length_zeroes i p
          if z.1 > 8 then none
          else if z.2.length < z.1 then none
          else
            let ret := BN_bin2bn (z.2.take z.1)
            if ret > 2 ^ 63 - 1 then none
            else some (false, ret, z.2.drop z.1)

/-- The octets of a multi-octet tag number: `(tag, rest, max)`, or `none` on the paths to the
label `err`. -/
def asn1_high_tag : List Nat → Nat → Nat → Option (Nat × List Nat × Nat)
  | [], _, _ => none
  | b :: p, l, max =>
    if b ≥ 0x80 then
      if max - 1 = 0 then none
      else if l * 128 + b % 128 > (2 ^ 31 - 1) / 128 then none
      else asn1_high_tag p (l * 128 + b % 128) (max - 1)
    else
      if max - 1 = 0 then none else some (l * 128 + b, p, max - 1)

/-- What `ASN1_get_object` delivers: its return value and, unless it went to `err`, the tag,
class, length and the advanced pointer. -/
structure Asn1Object where
  ret : Nat
  tag : Nat
  xclass : Nat
  len : Nat
  rest : List Nat
deriving DecidableEq, Repr

/-- OpenSSL's `ASN1_get_object(&p, &len, &tag, &class, omax)`.  The result `none` is the
return value 0x80 through the label `err`; a length that exceeds the input only adds 0x80
to the return value and still advances the pointer. -/
def ASN1_get_object (p : List Nat) (omax : Nat) : Option Asn1Object :=
  if omax = 0 then none
  else
    match p with
    | [] => none
    | b :: q =>
      let ret := b / 0x20 % 2 * 0x20
      let xclass := b / 0x40 % 4 * 0x40
      let i := b % 0x20
      let hdr : Option (Nat × List Nat × Nat) :=
        if i = V_ASN1_PRIMITIVE_TAG then
          if omax - 1 = 0 then none else asn1_high_tag q 0 (omax - 1)
        else
          if omax - 1 = 0 then none else some (i, q, omax - 1)
      match hdr with
      | none => none
      | some (tag, q, max) =>
        match asn1_get_length q max with
        | none => none
        | some (inf, len, rest) =>
          if inf && ret = 0 then none
          else
            let consumed := p.length - rest.length
            let ret := if len > omax - consumed then ret + 0x80 else ret
            some { ret := ret + (if inf then 1 else 0), tag := tag, xclass := xclass,
                   len := len, rest := rest }

/-- Big-endian digits of `n` on exactly `width` octets. -/
def be_bytes_fixed : Nat → Nat → List Nat
  | 0, _ => []
  | width + 1, n => (n / 256 ^ width % 256) :: be_bytes_fixed width n

/-- The magnitude that `c2i_ibuf` stores for the content octets of an INTEGER (OpenSSL 1.1):
a superfluous leading 0x00 or 0xFF octet is dropped, content with illegal padding or of
length zero is refused, and a negative value is replaced by its absolute value. -/
def c2i_ibuf (content : List Nat) : Option (List Nat) :=
  match content with
  | [] => none
  | [b] => if b ≥ 0x80 then some [(256 - b) % 256] else some [b]
  | b0 :: b1 :: more =>
    let neg := decide (b0 ≥ 0x80)
    let pad :=
      if b0 = 0 then true
      else if b0 = 0xFF then (b1 :: more).any (fun b => b ≠ 0)
      else false
    if pad && (neg == decide (b1 ≥ 0x80)) then none
    else
      let body := if pad then b1 :: more else content
      if neg then
        some (be_bytes_fixed body.length ((256 ^ body.length - BN_bin2bn body) % 256 ^ body.length))
      else some body

/-- OpenSSL's `d2i_ASN1_INTEGER(NULL, &p, len)`: the data of the parsed `ASN1_INTEGER` and
the advanced pointer, or `none` for a `NULL` result.  The object must be a primitive
universal INTEGER of definite length that fits in `len` octets. -/
def d2i_ASN1_INTEGER (p : List Nat) (len : Nat) : Option (List Nat × List Nat) :=
  match ASN1_get_object p len with
  | none => none
  | some o =>
    if o.ret ≥ 0x80 then none
    else if o.tag ≠ V_ASN1_INTEGER ∨ o.xclass ≠ 0 then none
    else if o.ret ≠ 0 then none
    else if o.rest.length < o.len then none
    else
      match c2i_ibuf (o.rest.take o.len) with
      | none => none
      | some data => some (data, o.rest.drop o.len)

/-! ## lib/tpm2_convert.c -/

/-- The function `extract_ecdsa` (lines 407-506): the buffer it returns (its length is the
value stored through `size`), or `none` for `NULL`.  `R` and `S` are the first
`size` bytes of `signatureR` and `signatureS`. -/
def extract_ecdsa (L : Asn1Lib) (R S : List Nat) : Option (List Nat) :=
  if !L.ASN1_INTEGER_new_ok then none
  else
    match L.i2d R with
    | none => none
    | some buf_r =>
      match L.i2d S with
      | none => none
      | some buf_s =>
        let size_r := buf_r.length
        let size_s := buf_s.length
        if size_s + size_r > 0xFF then none
        else if !L.malloc_ok then none
        else some (0x30 :: ((size_r + size_s) % 256) :: (buf_r ++ buf_s))

/-- Modelled from the spec: `files_load_bytes_from_path` (files.c is not among the
sources) reads "up to the maximum buffer size" from the source: it delivers the bytes of
the file when they fit into the buffer of `capacity` bytes and fails otherwise. -/
def files_load_bytes_from_path (file : Option (List Nat)) (capacity : Nat) : Option (List Nat) :=
  match file with
  | none => none
  | some bytes => if bytes.length ≤ capacity then some bytes else none

/-- The function `pop_ecdsa` (lines 315-369): the bytes and sizes stored into `signatureR`
and `signatureS`, or `none` when it returns false.  The parser runs over the zero-initialised
buffer `buf.buffer` into which the file was loaded; the bytes of each parsed INTEGER are
copied whatever their number. -/
def pop_ecdsa (file : Option (List Nat)) : Option (List Nat × List Nat) :=
  match files_load_bytes_from_path file TPM2_MAX_DIGEST_BUFFER with
  | none => none
  | some bytes =>
    let buffer := bytes ++ List.replicate (TPM2_MAX_DIGEST_BUFFER - bytes.length) 0
    let j : Nat × Nat × Nat × List Nat :=
      match ASN1_get_object buffer bytes.length with
      | none => (0x80, 0, 0, buffer)
      | some o => (o.ret, o.tag, o.len, o.rest)
    if j.1 / V_ASN1_CONSTRUCTED % 2 = 0 then none
    else if j.2.1 ≠ V_ASN1_SEQUENCE then none
    else
      match d2i_ASN1_INTEGER j.2.2.2 j.2.2.1 with
      | none => none
      | some (r, p) =>
        match d2i_ASN1_INTEGER p j.2.2.1 with
        | none => none
        | some (s, _) => some (r, s)

/-- The signature scheme identifiers of the TPM 2.0 specification that `tpm2_convert_sig`
switches on. -/
def TPM2_ALG_HMAC : Nat := 0x0005

/-- RSASSA-PKCS1-v1_5. -/
def TPM2_ALG_RSASSA : Nat := 0x0014

/-- RSASSA-PSS. -/
def TPM2_ALG_RSAPSS : Nat := 0x0016

/-- ECDSA. -/
def TPM2_ALG_ECDSA : Nat := 0x0018

/-- A `TPMT_SIGNATURE`: the member of the union that `sigAlg` selects.  `sig`, `signatureR`
and `signatureS` are the first `size` bytes of their buffers, `digest` the bytes of the
union `TPMU_HA`. -/
inductive TPMT_SIGNATURE where
  | rsassa (hash : Nat) (sig : List Nat)
  | rsapss (hash : Nat) (sig : List Nat)
  | hmac (hashAlg : Nat) (digest : List Nat)
  | ecdsa (hash : Nat) (signatureR signatureS : List Nat)
  | other (sigAlg : Nat)
deriving DecidableEq, Repr

/-- The field `sigAlg`. -/
def TPMT_SIGNATURE.sigAlg : TPMT_SIGNATURE → Nat
  | TPMT_SIGNATURE.rsassa _ _ => TPM2_ALG_RSASSA
  | TPMT_SIGNATURE.rsapss _ _ => TPM2_ALG_RSAPSS
  | TPMT_SIGNATURE.hmac _ _ => TPM2_ALG_HMAC
  | TPMT_SIGNATURE.ecdsa _ _ _ => TPM2_ALG_ECDSA
  | TPMT_SIGNATURE.other sigAlg => sigAlg

/-- The function `tpm2_convert_sig` (lines 508-558): the value stored through `size`
together with the contents of the returned buffer, or `none` for `NULL`.
`tpm2_alg_util_get_hash_size` (tpm2_alg_util.c, not among the sources) is the parameter
`get_hash_size`; it returns a `UINT16`, 0 for an algorithm it does not know. -/
def tpm2_convert_sig (L : Asn1Lib) (get_hash_size : Nat → Nat) (signature : TPMT_SIGNATURE) :
    Option (Nat × List Nat) :=
  match signature with
  | TPMT_SIGNATURE.rsassa _ sig =>
    if !L.malloc_ok then none else some (sig.length, sig)
  | TPMT_SIGNATURE.rsapss _ sig =>
    if !L.malloc_ok then none else some (sig.length, sig)
  | TPMT_SIGNATURE.hmac hashAlg digest =>
    let size := get_hash_size hashAlg
    if size = 0 then none
    else if !L.malloc_ok then none
    else some (size, digest.take size)
  | TPMT_SIGNATURE.ecdsa _ signatureR signatureS =>
    match extract_ecdsa L signatureR signatureS with
    | none => none
    | some buf => some (buf.length, buf)
  | TPMT_SIGNATURE.other _ => none

/-- The output formats `tpm2_convert_pubkey_fmt` (tpm2_convert.h). -/
inductive tpm2_convert_pubkey_fmt where
  | pubkey_format_tss
  | pubkey_format_pem
  | pubkey_format_der
  | pubkey_format_err
deriving DecidableEq, Repr

/-- The bytes of a `UINT32` object in memory, lowest address first. -/
def uint32_memory (big_endian : Bool) (x : Nat) : List Nat :=
  if big_endian then [x / 2 ^ 24 % 256, x / 2 ^ 16 % 256, x / 2 ^ 8 % 256, x % 256]
  else [x % 256, x / 2 ^ 8 % 256, x / 2 ^ 16 % 256, x / 2 ^ 24 % 256]

/-- The `UINT32` value whose memory holds the given four bytes. -/
def uint32_of_memory (big_endian : Bool) (bytes : List Nat) : Nat :=
  if big_endian then BN_bin2bn bytes else BN_bin2bn bytes.reverse

/-- Modelled from the spec: `tpm2_util_hton_32` (tpm2_util.c is not among the sources), the
host-to-network conversion by which the "exponent is serialized as a big-endian 4-byte
integer": the value is kept on a big-endian host and its four bytes are swapped end for end
on a little-endian one. -/
def tpm2_util_hton_32 (big_endian : Bool) (data : Nat) : Nat :=
  if big_endian then data
  else uint32_of_memory big_endian (uint32_memory big_endian data).reverse

/-- The RSA part of a `TPMT_PUBLIC`: `parameters.rsaDetail.exponent` (a `UINT32`) and the
first `unique.rsa.size` bytes of `unique.rsa.buffer`. -/
structure TPMT_PUBLIC_RSA where
  exponent : Nat
  modulus : List Nat
deriving DecidableEq, Repr

/-- What `convert_pubkey_RSA` depends on in OpenSSL: whether `RSA_new`, `BN_bin2bn` and
`RSA_set0_key` succeed, and the return value of the encoder for a key. -/
structure RsaLib where
  RSA_new_ok : Bool
  BN_bin2bn_ok : Bool
  RSA_set0_key_ok : Bool
  ssl_res : tpm2_convert_pubkey_fmt → Nat → Nat → Int

/-- A run of `convert_pubkey_RSA`: the key `(n, e)` handed to `PEM_write_RSA_PUBKEY` or
`i2d_RSA_PUBKEY_fp` (if the run gets that far) and the returned flag. -/
structure RsaConversion where
  encoded : Option (tpm2_convert_pubkey_fmt × Nat × Nat)
  ret : Bool
deriving DecidableEq, Repr

/-- The function `convert_pubkey_RSA` (lines 71-145) on a host of the given byte order. -/
def convert_pubkey_RSA (big_endian : Bool) (L : RsaLib) (pub : TPMT_PUBLIC_RSA)
    (format : tpm2_convert_pubkey_fmt) : RsaConversion :=
  let exponent := pub.exponent
  let exponent := if exponent = 0 then 0x10001 else exponent
  let exponent := tpm2_util_hton_32 big_endian exponent
  if !L.RSA_new_ok then { encoded := none, ret := false }
  else
    let e := BN_bin2bn (uint32_memory big_endian exponent)
    let n := BN_bin2bn pub.modulus
    if !L.BN_bin2bn_ok then { encoded := none, ret := false }
    else if !L.RSA_set0_key_ok then { encoded := none, ret := false }
    else
      match format with
      | tpm2_convert_pubkey_fmt.pubkey_format_pem =>
        { encoded := some (format, n, e), ret := decide (0 < L.ssl_res format n e) }
      | tpm2_convert_pubkey_fmt.pubkey_format_der =>
        { encoded := some (format, n, e), ret := decide (0 < L.ssl_res format n e) }
      | _ => { encoded := none, ret := false }

/-! ## Reference notions of X.690 (DER) used to state the properties -/

/-- The value of a byte string read as an unsigned big-endian integer:
the first byte weighs `256 ^ (length - 1)`. -/
def beValue : List Nat → Nat
  | [] => 0
  | b :: bs => b * 256 ^ bs.length + beValue bs

/-- The definite length a DER decoder reads at the head of `p` (X.690, 8.1.3): an octet below
0x80 is the length itself, an octet `0x80 + k` with `1 ≤ k ≤ 126` announces `k` further
octets holding the length; 0x80 (indefinite form) and 0xFF are not DER lengths. -/
def der_read_length (p : List Nat) : Option Nat :=
  match p with
  | [] => none
  | b :: q =>
    if b < 0x80 then some b
    else if b = 0x80 ∨ b ≥ 0xFF then none
    else if q.length < b - 0x80 then none
    else some (beValue (q.take (b - 0x80)))

/-- The DER encoding of a SEQUENCE with the given content octets (X.690, 8.9 and 10.1). -/
def der_sequence (content : List Nat) : List Nat :=
  0x30 :: (asn1_put_length content.length ++ content)


/-! ## Loading a signature (lib/tpm2_convert.c, lines 371-405) -/

/-- The capacity of `TPM2B_PUBLIC_KEY_RSA.buffer`. -/
def TPM2_MAX_RSA_KEY_BYTES : Nat := 512

/-- The capacity of `TPM2B_ECC_PARAMETER.buffer`. -/
def TPM2_MAX_ECC_KEY_BYTES : Nat := 128

/-- The signature file formats `tpm2_convert_sig_fmt` (tpm2_convert.h). -/
inductive tpm2_convert_sig_fmt where
  | signature_format_tss
  | signature_format_plain
  | signature_format_err
deriving DecidableEq, Repr

/-- What a call of `sig_load` or `tpm2_convert_sig_load` leaves behind: the returned flag, the
signature stored through `signature` when the flag is true, and whether the source file was
read at all. -/
structure SigLoad where
  ret : Bool
  signature : Option TPMT_SIGNATURE
  source_read : Bool
deriving DecidableEq, Repr

/-- The function `sig_load` (lines 371-391).  `file` is the content of the file at `path`
(`none` when it cannot be read). -/
def sig_load (file : Option (List Nat)) (sig_alg halg : Nat) : SigLoad :=
  if sig_alg = TPM2_ALG_RSASSA then
    match files_load_bytes_from_path file TPM2_MAX_RSA_KEY_BYTES with
    | none => { ret := false, signature := none, source_read := true }
    | some bytes =>
      { ret := true, signature := some (TPMT_SIGNATURE.rsassa halg bytes), source_read := true }
  else if sig_alg = TPM2_ALG_ECDSA then
    match pop_ecdsa file with
    | none => { ret := false, signature := none, source_read := true }
    | some rs =>
      { ret := true, signature := some (TPMT_SIGNATURE.ecdsa halg rs.1 rs.2),
        source_read := true }
  else
    { ret := false, signature := none, source_read := false }

/-- The function `tpm2_convert_sig_load` (lines 393-405).  `files_load_signature` (files.c,
not among the sources) is a parameter: the signature it unmarshals from a file, if any. -/
def tpm2_convert_sig_load (files_load_signature : Option (List Nat) → Option TPMT_SIGNATURE)
    (file : Option (List Nat)) (format : tpm2_convert_sig_fmt) (sig_alg halg : Nat) : SigLoad :=
  match format with
  | tpm2_convert_sig_fmt.signature_format_tss =>
    { ret := (files_load_signature file).isSome, signature := files_load_signature file,
      source_read := true }
  | tpm2_convert_sig_fmt.signature_format_plain => sig_load file sig_alg halg
  | tpm2_convert_sig_fmt.signature_format_err =>
    { ret := false, signature := none, source_read := false }

/-! ## lib/tpm2_hierarchy.c -/

/-- The permanent handle of the owner hierarchy. -/
def TPM2_RH_OWNER : Nat := 0x40000001

/-- The permanent handle of the null hierarchy. -/
def TPM2_RH_NULL : Nat := 0x40000007

/-- The permanent handle of the endorsement hierarchy. -/
def TPM2_RH_ENDORSEMENT : Nat := 0x4000000B

/-- The permanent handle of the platform hierarchy. -/
def TPM2_RH_PLATFORM : Nat := 0x4000000C

/-- The enumerators `TPM2_HIERARCHY_FLAGS_O`, `_P`, `_E` and `_N` of `tpm2_hierarchy_flags`
are declared in tpm2_hierarchy.h, which is not among the sources: their values are taken as
given. -/
structure HierarchyFlagBits where
  TPM2_HIERARCHY_FLAGS_O : Nat
  TPM2_HIERARCHY_FLAGS_P : Nat
  TPM2_HIERARCHY_FLAGS_E : Nat
  TPM2_HIERARCHY_FLAGS_N : Nat

/-- The numbering in which the four flags are the bits 0 to 3. -/
def hierarchy_flag_bits : HierarchyFlagBits :=
  { TPM2_HIERARCHY_FLAGS_O := 1, TPM2_HIERARCHY_FLAGS_P := 2, TPM2_HIERARCHY_FLAGS_E := 4,
    TPM2_HIERARCHY_FLAGS_N := 8 }

/-- The value of a character as a digit of `strtoul`: decimal digits, then letters of either
case counting from 10. -/
def strtoul_digit (c : Char) : Option Nat :=
  if 48 ≤ c.toNat ∧ c.toNat ≤ 57 then some (c.toNat - 48)
  else if 97 ≤ c.toNat ∧ c.toNat ≤ 122 then some (c.toNat - 97 + 10)
  else if 65 ≤ c.toNat ∧ c.toNat ≤ 90 then some (c.toNat - 65 + 10)
  else none

/-- The longest run of digits of the base at the head of the input: the number they denote,
how many there are, and what follows them. -/
def strtoul_digits (base : Nat) : List Char → Nat → Nat → Nat × Nat × List Char
  | [], acc, n => (acc, n, [])
  | c :: cs, acc, n =>
    match strtoul_digit c with
    | some d =>
      if d < base then strtoul_digits base cs (acc * base + d) (n + 1) else (acc, n, c :: cs)
    | none => (acc, n, c :: cs)

/-- The white space skipped by `strtoul` (`isspace` in the C locale). -/
def strtoul_skip_space : List Char → List Char
  | c :: cs =>
    if c.toNat = 32 ∨ (9 ≤ c.toNat ∧ c.toNat ≤ 13) then strtoul_skip_space cs else c :: cs
  | [] => []

/-- The C library call `strtoul(str, &endptr, 0)` on a 64-bit `unsigned long`: the value
returned, whether `errno` is set (`ERANGE`), and the characters from `endptr` on.  After
optional white space and sign the base is 16 after `0x` or `0X` followed by a hexadecimal
digit, 8 after `0`, and 10 otherwise; without any digit nothing is converted and `endptr` is
`str`. -/
def strtoul0 (str : List Char) : Nat × Bool × List Char :=
  let s := strtoul_skip_space str
  let neg : Bool := match s with
    | c :: _ => c.toNat = 45
    | [] => false
  let s := match s with
    | c :: cs => if c.toNat = 45 ∨ c.toNat = 43 then cs else s
    | [] => s
  let hex : Bool := match s with
    | z :: x :: h :: _ =>
      z.toNat = 48 ∧ (x.toNat = 120 ∨ x.toNat = 88) ∧ (strtoul_digit h).any (fun d => d < 16)
    | _ => false
  let base : Nat :=
    if hex then 16
    else match s with
      | z :: _ => if z.toNat = 48 then 8 else 10
      | [] => 10
  let r := strtoul_digits base (if hex then s.drop 2 else s) 0 0
  if r.2.1 = 0 then (0, false, str)
  else if r.1 ≥ 2 ^ 64 then (2 ^ 64 - 1, true, r.2.2)
  else ((if neg then (2 ^ 64 - r.1) % 2 ^ 64 else r.1), false, r.2.2)

/-- The helper `tpm2_util_string_to_uint32` (tpm2_util.c, not among the sources), which the
doc comment of `tpm2_hierarchy_from_optarg` describes as reading "a numerical string as
understood by strtoul() with a base of 0": the whole of a non-empty string must convert
without error to a value that fits 32 bits. -/
def tpm2_util_string_to_uint32 (str : String) : Option Nat :=
  if str.data = [] then none
  else
    let r := strtoul0 str.data
    if r.2.1 ∨ r.1 > 2 ^ 32 - 1 then none
    else if r.2.2 ≠ [] then none
    else some r.1

/-- The function `tpm2_hierarchy_from_optarg` (lines 31-86): the value stored through
`hierarchy` when it returns true, `none` when it returns false.  `value` is `none` for a
null pointer; `string_to_uint32` stands for `tpm2_util_string_to_uint32`. -/
def tpm2_hierarchy_from_optarg (F : HierarchyFlagBits) (string_to_uint32 : String → Option Nat)
    (value : Option String) (flags : Nat) : Option Nat :=
  match value with
  | none => none
  | some value =>
    if value = "o" then
      if flags &&& F.TPM2_HIERARCHY_FLAGS_O = 0 then none else some TPM2_RH_OWNER
    else if value = "p" then
      if flags &&& F.TPM2_HIERARCHY_FLAGS_P = 0 then none else some TPM2_RH_PLATFORM
    else if value = "e" then
      if flags &&& F.TPM2_HIERARCHY_FLAGS_E = 0 then none else some TPM2_RH_ENDORSEMENT
    else if value = "n" then
      if flags &&& F.TPM2_HIERARCHY_FLAGS_N = 0 then none else some TPM2_RH_NULL
    else string_to_uint32 value

/-- The flag of `tpm2_hierarchy_flags` that stands for a hierarchy handle, if there is one. -/
def hierarchy_flag (F : HierarchyFlagBits) (hierarchy : Nat) : Option Nat :=
  if hierarchy = TPM2_RH_OWNER then some F.TPM2_HIERARCHY_FLAGS_O
  else if hierarchy = TPM2_RH_PLATFORM then some F.TPM2_HIERARCHY_FLAGS_P
  else if hierarchy = TPM2_RH_ENDORSEMENT then some F.TPM2_HIERARCHY_FLAGS_E
  else if hierarchy = TPM2_RH_NULL then some F.TPM2_HIERARCHY_FLAGS_N
  else none

/-! ## Success of the calls in a trace -/

/-- Whether an event is a read of the input rather than an ESAPI call. -/
def Event.isRead : Event → Bool
  | Event.fread _ => true
  | Event.files_read_bytes _ _ => true
  | _ => false

/-- Whether every ESAPI call among the events `es`, made in this order after the events
`pre`, got the response code of success from the context. -/
def callsSucceeded {D : Type} (E : Esys D) : List Event → List Event → Bool
  | _, [] => true
  | pre, e :: es =>
    (e.isRead || E.rc pre e == TSS2_RC_SUCCESS) && callsSucceeded E (pre ++ [e]) es

/-! ## The read / update loop -/

theorem absorbed_append (a b : List Event) : absorbed (a ++ b) = absorbed a ++ absorbed b := by
  induction a with
  | nil => rfl
  | cons e es ih => cases e <;> simp [absorbed, ih]

theorem updateData_append (a b : List Event) :
    updateData (a ++ b) = updateData a ++ updateData b := by
  induction a with
  | nil => rfl
  | cons e es ih => cases e <;> simp [updateData, ih]

theorem completeData_append (a b : List Event) :
    completeData (a ++ b) = completeData a ++ completeData b := by
  induction a with
  | nil => rfl
  | cons e es ih => cases e <;> simp [completeData, ih]

theorem pcrEventData_append (a b : List Event) :
    pcrEventData (a ++ b) = pcrEventData a ++ pcrEventData b := by
  induction a with
  | nil => rfl
  | cons e es ih => cases e <;> simp [pcrEventData, ih]

theorem freadData_append (a b : List Event) :
    freadData (a ++ b) = freadData a ++ freadData b := by
  induction a with
  | nil => rfl
  | cons e es ih => cases e <;> simp [freadData, ih]

theorem absorbed_chunkEvents (us : List (List Nat)) : absorbed (chunkEvents us) = flat us := by
  induction us with
  | nil => rfl
  | cons u us ih => simp [chunkEvents, absorbed, flat, ih]

theorem updateData_chunkEvents (us : List (List Nat)) : updateData (chunkEvents us) = us := by
  induction us with
  | nil => rfl
  | cons u us ih => simp [chunkEvents, updateData, ih]

theorem freadData_chunkEvents (us : List (List Nat)) : freadData (chunkEvents us) = us := by
  induction us with
  | nil => rfl
  | cons u us ih => simp [chunkEvents, freadData, ih]

theorem completeData_chunkEvents (us : List (List Nat)) : completeData (chunkEvents us) = [] := by
  induction us with
  | nil => rfl
  | cons u us ih => simp [chunkEvents, completeData, ih]

theorem pcrEventData_chunkEvents (us : List (List Nat)) : pcrEventData (chunkEvents us) = [] := by
  induction us with
  | nil => rfl
  | cons u us ih => simp [chunkEvents, pcrEventData, ih]

theorem length_flat_of_chunks (us : List (List Nat)) (n : Nat) (h : ∀ u ∈ us, u.length = n) :
    (flat us).length = n * us.length := by
  induction us with
  | nil => simp [flat]
  | cons u us ih =>
    have hu : u.length = n := h u (by simp)
    have hrest : (flat us).length = n * us.length := ih (fun v hv => h v (by simp [hv]))
    simp [flat, hu, hrest, Nat.mul_add]
    omega

/-- With the size known and more than one buffer of input ahead, the loop submits full
buffers and stops as soon as at most one buffer is left. -/
theorem update_loop_known {D : Type} (E : Esys D)
    (hrc : ∀ tr e, E.rc tr e = TPM2_RC_SUCCESS) (b : Bool) :
    ∀ (fuel : Nat) (c : List Nat) (tr : List Event),
      TPM2_MAX_DIGEST_BUFFER < c.length → c.length ≤ TPM2_MAX_DIGEST_BUFFER * (fuel + 1) →
      ∃ us last,
        update_loop E true fuel c.length ⟨c, b, false, false⟩ tr
          = some (Except.ok (last.length, ⟨last, b, false, false⟩, tr ++ chunkEvents us))
        ∧ flat us ++ last = c
        ∧ (∀ u ∈ us, u.length = TPM2_MAX_DIGEST_BUFFER)
        ∧ 0 < last.length ∧ last.length ≤ TPM2_MAX_DIGEST_BUFFER := by
  intro fuel
  induction fuel with
  | zero =>
    intro c tr h1 h2
    omega
  | succ fuel ih =>
    intro c tr h1 h2
    have htake : (c.take TPM2_MAX_DIGEST_BUFFER).length = TPM2_MAX_DIGEST_BUFFER := by
      rw [List.length_take]; omega
    have hdrop : (c.drop TPM2_MAX_DIGEST_BUFFER).length = c.length - TPM2_MAX_DIGEST_BUFFER :=
      List.length_drop _ _
    by_cases hlast : c.length - TPM2_MAX_DIGEST_BUFFER ≤ TPM2_MAX_DIGEST_BUFFER
    · refine ⟨[c.take TPM2_MAX_DIGEST_BUFFER], c.drop TPM2_MAX_DIGEST_BUFFER, ?_, ?_, ?_, ?_, ?_⟩
      · simp only [update_loop, fread, htake, hrc]
        simp [hlast, chunkEvents, hdrop]
      · simp [flat]
      · intro u hu
        simp at hu
        rw [hu, htake]
      · omega
      · omega
    · obtain ⟨us, last, hrun, hcat, hlen, hpos, hle⟩ :=
        ih (c.drop TPM2_MAX_DIGEST_BUFFER)
          (tr ++ [Event.fread (c.take TPM2_MAX_DIGEST_BUFFER),
              Event.Esys_SequenceUpdate (c.take TPM2_MAX_DIGEST_BUFFER)])
          (by omega) (by simp only [TPM2_MAX_DIGEST_BUFFER] at *; omega)
      refine ⟨c.take TPM2_MAX_DIGEST_BUFFER :: us, last, ?_, ?_, ?_, hpos, hle⟩
      · simp only [update_loop, fread, htake, hrc]
        rw [hdrop] at hrun
        simp [hlast, chunkEvents, hrun]
      · simp [flat, List.append_assoc, hcat]
      · intro u hu
        simp at hu
        rcases hu with hu | hu
        · rw [hu, htake]
        · exact hlen u hu

/-- With the size unknown, the loop submits every chunk it reads and stops after the read
that met the end of the stream. -/
theorem update_loop_unknown {D : Type} (E : Esys D)
    (hrc : ∀ tr e, E.rc tr e = TPM2_RC_SUCCESS) (left : Nat) :
    ∀ (fuel : Nat) (c : List Nat) (tr : List Event),
      c.length < TPM2_MAX_DIGEST_BUFFER * fuel →
      ∃ us,
        update_loop E false fuel left ⟨c, false, false, false⟩ tr
          = some (Except.ok (left, ⟨[], false, true, false⟩, tr ++ chunkEvents us))
        ∧ flat us = c
        ∧ us ≠ []
        ∧ (∀ u ∈ us, u.length ≤ TPM2_MAX_DIGEST_BUFFER) := by
  intro fuel
  induction fuel with
  | zero =>
    intro c tr h
    omega
  | succ fuel ih =>
    intro c tr h
    by_cases hshort : c.length < TPM2_MAX_DIGEST_BUFFER
    · refine ⟨[c], ?_, ?_, ?_, ?_⟩
      · have htake : c.take TPM2_MAX_DIGEST_BUFFER = c := List.take_of_length_le (by omega)
        have hdrop : c.drop TPM2_MAX_DIGEST_BUFFER = [] := List.drop_of_length_le (by omega)
        simp only [update_loop, fread, htake, hdrop, hrc]
        simp [hshort, chunkEvents]
      · simp [flat]
      · simp
      · intro u hu
        simp at hu
        rw [hu]; omega
    · have htake : (c.take TPM2_MAX_DIGEST_BUFFER).length = TPM2_MAX_DIGEST_BUFFER := by
        rw [List.length_take]; omega
      obtain ⟨us, hrun, hcat, -, hlen⟩ :=
        ih (c.drop TPM2_MAX_DIGEST_BUFFER)
          (tr ++ [Event.fread (c.take TPM2_MAX_DIGEST_BUFFER),
              Event.Esys_SequenceUpdate (c.take TPM2_MAX_DIGEST_BUFFER)])
          (by rw [List.length_drop]; simp only [TPM2_MAX_DIGEST_BUFFER] at *; omega)
      refine ⟨c.take TPM2_MAX_DIGEST_BUFFER :: us, ?_, ?_, ?_, ?_⟩
      · simp only [update_loop, fread, htake, hrc]
        simp [chunkEvents, hrun]
      · simp [flat, hcat]
      · simp
      · intro u hu
        simp at hu
        rcases hu with hu | hu
        · rw [hu, htake]
        · exact hlen u hu

/-- The whole run on an input of known size above one buffer. -/
theorem tpm_pcrevent_file_known {D : Type} (E : Esys D) (fuel : Nat) (c : List Nat)
    (hrc : ∀ tr e, E.rc tr e = TPM2_RC_SUCCESS) (hsh : E.shandle1 ≠ ESYS_TR_NONE)
    (hbig : BUFFER_SIZE_TPM2B_EVENT < c.length)
    (hfuel : c.length < TPM2_MAX_DIGEST_BUFFER * fuel) :
    ∃ us last,
      tpm_pcrevent_file E fuel (some c.length) (FILE.fresh c false)
        = some { rc := Returned.tool_rc_success, result := some (E.digests c),
                 trace := [Event.Esys_HashSequenceStart, Event.Esys_TR_SetAuth] ++ chunkEvents us
                   ++ [Event.files_read_bytes last.length true,
                       Event.Esys_EventSequenceComplete last] }
      ∧ flat us ++ last = c
      ∧ (∀ u ∈ us, u.length = TPM2_MAX_DIGEST_BUFFER)
      ∧ 0 < last.length ∧ last.length ≤ TPM2_MAX_DIGEST_BUFFER := by
  have hbig2 : TPM2_MAX_DIGEST_BUFFER < c.length := hbig
  obtain ⟨us, last, hrun, hcat, hlen, hpos, hle⟩ :=
    update_loop_known E hrc false fuel c
      [Event.Esys_HashSequenceStart, Event.Esys_TR_SetAuth] hbig2
      (by simp only [TPM2_MAX_DIGEST_BUFFER] at *; omega)
  refine ⟨us, last, ?_, hcat, hlen, hpos, hle⟩
  have hnot : ¬ c.length ≤ BUFFER_SIZE_TPM2B_EVENT := by omega
  simp only [tpm_pcrevent_file, FILE.fresh, Option.isSome_some, Option.getD_some, hnot,
    decide_False, Bool.and_false, hrc]
  simp only [List.singleton_append, List.nil_append] at hrun ⊢
  rw [hrun]
  simp [files_read_bytes, fread, hsh, hrc, absorbed_append, absorbed_chunkEvents, absorbed, hcat,
    TPM2_RC_SUCCESS, TSS2_RC_SUCCESS]

/-- The whole run on an input of unknown size. -/
theorem tpm_pcrevent_file_unknown {D : Type} (E : Esys D) (fuel : Nat) (c : List Nat)
    (hrc : ∀ tr e, E.rc tr e = TPM2_RC_SUCCESS) (hsh : E.shandle1 ≠ ESYS_TR_NONE)
    (hfuel : c.length < TPM2_MAX_DIGEST_BUFFER * fuel) :
    ∃ us,
      tpm_pcrevent_file E fuel none (FILE.fresh c false)
        = some { rc := Returned.tool_rc_success, result := some (E.digests c),
                 trace := [Event.Esys_HashSequenceStart, Event.Esys_TR_SetAuth] ++ chunkEvents us
                   ++ [Event.Esys_EventSequenceComplete []] }
      ∧ flat us = c
      ∧ us ≠ []
      ∧ (∀ u ∈ us, u.length ≤ TPM2_MAX_DIGEST_BUFFER) := by
  obtain ⟨us, hrun, hcat, hne, hlen⟩ :=
    update_loop_unknown E hrc 0 fuel c
      [Event.Esys_HashSequenceStart, Event.Esys_TR_SetAuth] hfuel
  refine ⟨us, ?_, hcat, hne, hlen⟩
  simp only [tpm_pcrevent_file, FILE.fresh, Option.isSome_none, Option.getD_none,
    Bool.false_and, hrc]
  simp only [List.singleton_append, List.nil_append] at hrun ⊢
  rw [hrun]
  simp [hsh, hrc, absorbed_append, absorbed_chunkEvents, absorbed, hcat,
    TPM2_RC_SUCCESS, TSS2_RC_SUCCESS]


/-- Whatever the TPM and the stream do, the loop adds no `Esys_PCR_Event` call to the
trace and leaves what was already in it untouched. -/
theorem update_loop_extends_trace {D : Type} (E : Esys D) (use_left : Bool) :
    ∀ (fuel left : Nat) (input : FILE) (tr : List Event)
      (res : Except (Outcome D) (Nat × FILE × List Event)),
      update_loop E use_left fuel left input tr = some res →
      ∃ evs, pcrEventData evs = [] ∧ loopTrace res = tr ++ evs := by
  intro fuel
  induction fuel with
  | zero =>
    intro left input tr res h
    simp [update_loop] at h
  | succ fuel ih =>
    intro left input tr res h
    have hstep : ∀ left2 input2,
        update_loop E use_left fuel left2 input2
            (tr ++ [Event.fread (fread TPM2_MAX_DIGEST_BUFFER input).1]
              ++ [Event.Esys_SequenceUpdate (fread TPM2_MAX_DIGEST_BUFFER input).1])
          = some res →
        ∃ evs, pcrEventData evs = [] ∧ loopTrace res = tr ++ evs := by
      intro left2 input2 h2
      obtain ⟨evs, hevs, hres⟩ := ih left2 input2 _ res h2
      refine ⟨Event.fread (fread TPM2_MAX_DIGEST_BUFFER input).1
          :: Event.Esys_SequenceUpdate (fread TPM2_MAX_DIGEST_BUFFER input).1 :: evs,
        by simpa [pcrEventData] using hevs, ?_⟩
      simpa using hres
    simp only [update_loop] at h
    split at h
    · cases h
      exact ⟨[Event.fread (fread TPM2_MAX_DIGEST_BUFFER input).1], rfl, rfl⟩
    · split at h
      · cases h
        exact ⟨[Event.fread (fread TPM2_MAX_DIGEST_BUFFER input).1,
            Event.Esys_SequenceUpdate (fread TPM2_MAX_DIGEST_BUFFER input).1], rfl,
          by simp [loopTrace]⟩
      · split at h
        · split at h
          · cases h
            exact ⟨[Event.fread (fread TPM2_MAX_DIGEST_BUFFER input).1,
                Event.Esys_SequenceUpdate (fread TPM2_MAX_DIGEST_BUFFER input).1], rfl,
              by simp [loopTrace]⟩
          · exact hstep _ _ h
        · split at h
          · cases h
            exact ⟨[Event.fread (fread TPM2_MAX_DIGEST_BUFFER input).1,
                Event.Esys_SequenceUpdate (fread TPM2_MAX_DIGEST_BUFFER input).1], rfl,
              by simp [loopTrace]⟩
          · exact hstep _ _ h

/-- Whenever the size is unknown or above the event buffer, a run, however it ends, has begun
with `Esys_HashSequenceStart` and has made no `Esys_PCR_Event` call. -/
theorem tpm_pcrevent_file_streaming_trace {D : Type} (E : Esys D) (fuel : Nat)
    (size : Option Nat) (input : FILE) (o : Outcome D)
    (hsize : ∀ n, size = some n → BUFFER_SIZE_TPM2B_EVENT < n)
    (hrun : tpm_pcrevent_file E fuel size input = some o) :
    o.trace.head? = some Event.Esys_HashSequenceStart ∧ pcrEventData o.trace = [] := by
  have hcond : (size.isSome && decide (size.getD 0 ≤ BUFFER_SIZE_TPM2B_EVENT)) = false := by
    cases size with
    | none => rfl
    | some n =>
      have := hsize n rfl
      simp; omega
  simp only [tpm_pcrevent_file, hcond, Bool.false_eq_true, if_false] at hrun
  split at hrun
  · cases hrun; exact ⟨rfl, rfl⟩
  · split at hrun
    · cases hrun; exact ⟨rfl, rfl⟩
    · split at hrun
      · cases hrun
      · next o2 hloop =>
        obtain ⟨evs, hevs, hres⟩ := update_loop_extends_trace E _ _ _ _ _ _ hloop
        cases hrun
        simp only [loopTrace] at hres
        rw [hres]
        simp [pcrEventData_append, hevs, pcrEventData]
      · next left input2 tr2 hloop =>
        obtain ⟨evs, hevs, hres⟩ := update_loop_extends_trace E _ _ _ _ _ _ hloop
        simp only [loopTrace] at hres
        subst hres
        have hpre : ∀ more : List Event, pcrEventData more = [] →
            (([Event.Esys_HashSequenceStart] ++ [Event.Esys_TR_SetAuth] ++ evs) ++ more).head?
                = some Event.Esys_HashSequenceStart
              ∧ pcrEventData
                  (([Event.Esys_HashSequenceStart] ++ [Event.Esys_TR_SetAuth] ++ evs) ++ more)
                = [] := by
          intro more hmore
          simp [pcrEventData_append, hevs, hmore, pcrEventData]
        have hpre0 := hpre [] rfl
        rw [List.append_nil] at hpre0
        cases size with
        | none =>
          simp only [Option.isSome_none, Bool.false_and, Bool.false_eq_true, if_false] at hrun
          split at hrun
          · cases hrun; exact hpre0
          · split at hrun
            · cases hrun; exact hpre [_] rfl
            · cases hrun; exact hpre [_] rfl
        | some n =>
          simp only [Option.isSome_some, Bool.true_and, if_true] at hrun
          split at hrun
          · cases hrun; exact hpre [_] rfl
          · split at hrun
            · cases hrun; exact hpre [_] rfl
            · split at hrun
              · cases hrun
                simpa using hpre [Event.files_read_bytes left (files_read_bytes input2 left).1,
                  Event.Esys_EventSequenceComplete (files_read_bytes input2 left).2.1] rfl
              · cases hrun
                simpa using hpre [Event.files_read_bytes left (files_read_bytes input2 left).1,
                  Event.Esys_EventSequenceComplete (files_read_bytes input2 left).2.1] rfl


/-- Whenever the size is known and fits the event buffer, the run returns, whatever the TPM
and the stream do, without starting a hash sequence and after at most one
`Esys_PCR_Event` call. -/
theorem tpm_pcrevent_file_single_shot_trace {D : Type} (E : Esys D) (fuel n : Nat)
    (input : FILE) (hn : n ≤ BUFFER_SIZE_TPM2B_EVENT) :
    ∃ o, tpm_pcrevent_file E fuel (some n) input = some o
      ∧ Event.Esys_HashSequenceStart ∉ o.trace
      ∧ updateData o.trace = [] ∧ completeData o.trace = []
      ∧ (pcrEventData o.trace).length ≤ 1 := by
  simp only [tpm_pcrevent_file, Option.isSome_some, Option.getD_some, hn, decide_True,
    Bool.and_self, if_true]
  split
  · exact ⟨_, rfl, by simp, rfl, rfl, by simp [pcrEventData]⟩
  · split
    · exact ⟨_, rfl, by simp, rfl, rfl, by simp [pcrEventData]⟩
    · split
      · exact ⟨_, rfl, by simp, rfl, rfl, by simp [pcrEventData]⟩
      · exact ⟨_, rfl, by simp, rfl, rfl, by simp [pcrEventData]⟩


/-! ## Properties of `tpm_pcrevent_file` -/

/-- C1: on the streaming path (size unknown, or known and above 1024 bytes), with every read
and TPM call succeeding, the run ends with `Esys_EventSequenceComplete`, and the data of the
`Esys_SequenceUpdate` calls before it, concatenated in call order and followed by the data
of that final call, is the input byte for byte; the digest set delivered is the TPM's digest
of the input as one message. -/
theorem tpm_pcrevent_file_streams_input {D : Type} (E : Esys D) (fuel : Nat) (c : List Nat)
    (size : Option Nat)
    (hrc : ∀ tr e, E.rc tr e = TPM2_RC_SUCCESS) (hsh : E.shandle1 ≠ ESYS_TR_NONE)
    (hsize : size = none ∨ (size = some c.length ∧ BUFFER_SIZE_TPM2B_EVENT < c.length))
    (hfuel : c.length < TPM2_MAX_DIGEST_BUFFER * fuel) :
    ∃ pre data,
      tpm_pcrevent_file E fuel size (FILE.fresh c false)
        = some { rc := Returned.tool_rc_success, result := some (E.digests c),
                 trace := pre ++ [Event.Esys_EventSequenceComplete data] }
      ∧ completeData pre = [] ∧ pcrEventData pre = []
      ∧ flat (updateData pre) ++ data = c := by
  rcases hsize with hnone | ⟨hsome, hbig⟩
  · obtain ⟨us, hrun, hcat, -, -⟩ := tpm_pcrevent_file_unknown E fuel c hrc hsh hfuel
    refine ⟨[Event.Esys_HashSequenceStart, Event.Esys_TR_SetAuth] ++ chunkEvents us, [], ?_, ?_,
      ?_, ?_⟩
    · rw [hnone, hrun]
    · simp [completeData_append, completeData_chunkEvents, completeData]
    · simp [pcrEventData_append, pcrEventData_chunkEvents, pcrEventData]
    · simp [updateData_append, updateData_chunkEvents, updateData, hcat]
  · obtain ⟨us, last, hrun, hcat, -, -, -⟩ := tpm_pcrevent_file_known E fuel c hrc hsh hbig hfuel
    refine ⟨[Event.Esys_HashSequenceStart, Event.Esys_TR_SetAuth] ++ chunkEvents us
        ++ [Event.files_read_bytes last.length true], last, ?_, ?_, ?_, ?_⟩
    · rw [hsome, hrun]; simp
    · simp [completeData_append, completeData_chunkEvents, completeData]
    · simp [pcrEventData_append, pcrEventData_chunkEvents, pcrEventData]
    · simp [updateData_append, updateData_chunkEvents, updateData, hcat]

/-- Witness for C1: an input of 1025 zero bytes whose size is known. -/
theorem tpm_pcrevent_file_streams_input_witness :
    ∃ pre data,
      tpm_pcrevent_file okEsys 2 (some (List.replicate 1025 0).length)
          (FILE.fresh (List.replicate 1025 0) false)
        = some { rc := Returned.tool_rc_success,
                 result := some (okEsys.digests (List.replicate 1025 0)),
                 trace := pre ++ [Event.Esys_EventSequenceComplete data] }
      ∧ completeData pre = [] ∧ pcrEventData pre = []
      ∧ flat (updateData pre) ++ data = List.replicate 1025 0 :=
  tpm_pcrevent_file_streams_input okEsys 2 (List.replicate 1025 0)
    (some (List.replicate 1025 0).length) (fun _ _ => rfl) (by decide)
    (Or.inr ⟨rfl, by simp only [List.length_replicate, BUFFER_SIZE_TPM2B_EVENT]; omega⟩)
    (by simp only [List.length_replicate, TPM2_MAX_DIGEST_BUFFER]; omega)

/-- C4: for a known size `n` above 1024 (reads and TPM calls succeeding) the run issues
exactly `ceil(n/1024) - 1` calls of `Esys_SequenceUpdate`, each of 1024 bytes, and passes
the rest of the input, `n - 1024 * (ceil(n/1024) - 1)` bytes and between 1 and 1024 of
them, to `Esys_EventSequenceComplete`; no call carries more than 1024 bytes. -/
theorem tpm_pcrevent_file_holds_back_final_chunk {D : Type} (E : Esys D) (fuel : Nat)
    (c : List Nat)
    (hrc : ∀ tr e, E.rc tr e = TPM2_RC_SUCCESS) (hsh : E.shandle1 ≠ ESYS_TR_NONE)
    (hbig : 1024 < c.length)
    (hfuel : c.length < TPM2_MAX_DIGEST_BUFFER * fuel) :
    ∃ pre data,
      tpm_pcrevent_file E fuel (some c.length) (FILE.fresh c false)
        = some { rc := Returned.tool_rc_success, result := some (E.digests c),
                 trace := pre ++ [Event.Esys_EventSequenceComplete data] }
      ∧ completeData pre = []
      ∧ (updateData pre).length = (c.length + 1023) / 1024 - 1
      ∧ (∀ u ∈ updateData pre, u.length = 1024)
      ∧ data = c.drop (1024 * ((c.length + 1023) / 1024 - 1))
      ∧ data.length = c.length - 1024 * ((c.length + 1023) / 1024 - 1)
      ∧ 1 ≤ data.length ∧ data.length ≤ 1024
      ∧ flat (updateData pre) ++ data = c := by
  obtain ⟨us, last, hrun, hcat, hlen, hpos, hle⟩ :=
    tpm_pcrevent_file_known E fuel c hrc hsh hbig hfuel
  have hflat : (flat us).length = 1024 * us.length := length_flat_of_chunks us 1024 hlen
  have htotal : c.length = 1024 * us.length + last.length := by
    rw [← hcat, List.length_append, hflat]
  have hle2 : last.length ≤ 1024 := hle
  have hcount : (c.length + 1023) / 1024 - 1 = us.length := by omega
  refine ⟨[Event.Esys_HashSequenceStart, Event.Esys_TR_SetAuth] ++ chunkEvents us
      ++ [Event.files_read_bytes last.length true], last, ?_, ?_, ?_, ?_, ?_, ?_, hpos, hle, ?_⟩
  · rw [hrun]; simp
  · simp [completeData_append, completeData_chunkEvents, completeData]
  · simp [updateData_append, updateData_chunkEvents, updateData, hcount]
  · simpa [updateData_append, updateData_chunkEvents, updateData] using hlen
  · rw [hcount, ← hflat, ← hcat, List.drop_left]
  · omega
  · simp [updateData_append, updateData_chunkEvents, updateData, hcat]

/-- Witness for C4: an input of 2049 bytes, i.e. two updates and one byte held back. -/
theorem tpm_pcrevent_file_holds_back_final_chunk_witness :
    ∃ pre data,
      tpm_pcrevent_file okEsys 3 (some (List.replicate 2049 7).length)
          (FILE.fresh (List.replicate 2049 7) false)
        = some { rc := Returned.tool_rc_success,
                 result := some (okEsys.digests (List.replicate 2049 7)),
                 trace := pre ++ [Event.Esys_EventSequenceComplete data] }
      ∧ completeData pre = []
      ∧ (updateData pre).length = ((List.replicate 2049 7).length + 1023) / 1024 - 1
      ∧ (∀ u ∈ updateData pre, u.length = 1024)
      ∧ data = (List.replicate 2049 7).drop
          (1024 * (((List.replicate 2049 7).length + 1023) / 1024 - 1))
      ∧ data.length
          = (List.replicate 2049 7).length
            - 1024 * (((List.replicate 2049 7).length + 1023) / 1024 - 1)
      ∧ 1 ≤ data.length ∧ data.length ≤ 1024
      ∧ flat (updateData pre) ++ data = List.replicate 2049 7 :=
  tpm_pcrevent_file_holds_back_final_chunk okEsys 3 (List.replicate 2049 7)
    (fun _ _ => rfl) (by decide) (by simp only [List.length_replicate]; omega)
    (by simp only [List.length_replicate, TPM2_MAX_DIGEST_BUFFER]; omega)


/-- The run on a size-unknown stream of one full buffer and one more byte. -/
theorem tpm_pcrevent_file_unknown_two_chunks (a : List Nat) (b : Nat)
    (ha : a.length = TPM2_MAX_DIGEST_BUFFER) :
    tpm_pcrevent_file okEsys 2 none (FILE.fresh (a ++ [b]) false)
      = some { rc := Returned.tool_rc_success, result := some (a ++ [b]),
               trace := [Event.Esys_HashSequenceStart, Event.Esys_TR_SetAuth,
                 Event.fread a, Event.Esys_SequenceUpdate a,
                 Event.fread [b], Event.Esys_SequenceUpdate [b],
                 Event.Esys_EventSequenceComplete []] } := by
  have htake : List.take TPM2_MAX_DIGEST_BUFFER (a ++ [b]) = a := List.take_left' ha
  have hdrop : List.drop TPM2_MAX_DIGEST_BUFFER (a ++ [b]) = [b] := List.drop_left' ha
  have htake1 : List.take TPM2_MAX_DIGEST_BUFFER [b] = [b] := rfl
  have hdrop1 : List.drop TPM2_MAX_DIGEST_BUFFER [b] = [] := rfl
  simp only [tpm_pcrevent_file, update_loop, fread, FILE.fresh, okEsys, htake, hdrop, htake1,
    hdrop1, ha]
  simp [TSS2_RC_SUCCESS, TPM2_RC_SUCCESS, ESYS_TR_PASSWORD, ESYS_TR_NONE, absorbed,
    TPM2_MAX_DIGEST_BUFFER]

/-- C5, as stated, fails: on a size-unknown stream of 1025 bytes the input is read as two
chunks (1024 bytes, then 1 byte); both, the final one included, are submitted through
`Esys_SequenceUpdate`, and `Esys_EventSequenceComplete` receives an empty buffer, not the
last chunk read. -/
theorem unknown_size_final_chunk_goes_to_update :
    (tpm_pcrevent_file okEsys 2 none (FILE.fresh (List.replicate 1025 0) false)).map
        (fun o => (freadData o.trace, updateData o.trace, completeData o.trace))
      = some ([List.replicate 1024 0, [0]], [List.replicate 1024 0, [0]], [[]]) := by
  have h : List.replicate 1025 0 = List.replicate 1024 0 ++ [0] :=
    List.replicate_succ' 1024 0
  have hlen : (List.replicate 1024 0).length = TPM2_MAX_DIGEST_BUFFER := List.length_replicate _ _
  rw [h, tpm_pcrevent_file_unknown_two_chunks (List.replicate 1024 0) 0 hlen]
  rfl

/-- C5, amended: on a size-unknown stream (reads and TPM calls succeeding) every chunk
delivered by `fread`, the final one included, is submitted through `Esys_SequenceUpdate` in
read order, and `Esys_EventSequenceComplete` is passed an empty buffer. -/
theorem tpm_pcrevent_file_unknown_size_updates_every_chunk {D : Type} (E : Esys D) (fuel : Nat)
    (c : List Nat)
    (hrc : ∀ tr e, E.rc tr e = TPM2_RC_SUCCESS) (hsh : E.shandle1 ≠ ESYS_TR_NONE)
    (hfuel : c.length < TPM2_MAX_DIGEST_BUFFER * fuel) :
    ∃ pre,
      tpm_pcrevent_file E fuel none (FILE.fresh c false)
        = some { rc := Returned.tool_rc_success, result := some (E.digests c),
                 trace := pre ++ [Event.Esys_EventSequenceComplete []] }
      ∧ completeData pre = []
      ∧ freadData pre ≠ []
      ∧ updateData pre = freadData pre
      ∧ flat (freadData pre) = c := by
  obtain ⟨us, hrun, hcat, hne, -⟩ := tpm_pcrevent_file_unknown E fuel c hrc hsh hfuel
  refine ⟨[Event.Esys_HashSequenceStart, Event.Esys_TR_SetAuth] ++ chunkEvents us, hrun, ?_, ?_,
    ?_, ?_⟩
  · simp [completeData_append, completeData_chunkEvents, completeData]
  · simpa [freadData_append, freadData_chunkEvents, freadData] using hne
  · simp [updateData_append, updateData_chunkEvents, updateData, freadData_append,
      freadData_chunkEvents, freadData]
  · simpa [freadData_append, freadData_chunkEvents, freadData] using hcat

/-- Witness for the amended C5: a stream of 1025 bytes. -/
theorem tpm_pcrevent_file_unknown_size_updates_every_chunk_witness :
    ∃ pre,
      tpm_pcrevent_file okEsys 2 none (FILE.fresh (List.replicate 1025 0) false)
        = some { rc := Returned.tool_rc_success,
                 result := some (okEsys.digests (List.replicate 1025 0)),
                 trace := pre ++ [Event.Esys_EventSequenceComplete []] }
      ∧ completeData pre = []
      ∧ freadData pre ≠ []
      ∧ updateData pre = freadData pre
      ∧ flat (freadData pre) = List.replicate 1025 0 :=
  tpm_pcrevent_file_unknown_size_updates_every_chunk okEsys 2 (List.replicate 1025 0)
    (fun _ _ => rfl) (by decide)
    (by simp only [List.length_replicate, TPM2_MAX_DIGEST_BUFFER]; omega)


/-- The whole run on an input of known size that fits the event buffer. -/
theorem tpm_pcrevent_file_single_shot {D : Type} (E : Esys D) (fuel : Nat) (c : List Nat)
    (hrc : ∀ tr e, E.rc tr e = TPM2_RC_SUCCESS) (hsh : E.shandle1 ≠ ESYS_TR_NONE)
    (hfit : c.length ≤ BUFFER_SIZE_TPM2B_EVENT) :
    tpm_pcrevent_file E fuel (some c.length) (FILE.fresh c false)
      = some { rc := Returned.tool_rc_success, result := some (E.digests c),
               trace := [Event.files_read_bytes c.length true, Event.Esys_PCR_Event c] } := by
  simp [tpm_pcrevent_file, FILE.fresh, files_read_bytes, fread, hfit, hsh, hrc,
    TPM2_RC_SUCCESS, TSS2_RC_SUCCESS]

/-- C6: with the size known (and reads and TPM calls succeeding) the run is single-shot,
i.e. makes exactly one `Esys_PCR_Event` call, carrying the whole input, and starts no hash
sequence, if and only if the size is at most 1024; above 1024 it starts a hash sequence and
makes no `Esys_PCR_Event` call.  An input of unknown size is always streamed.  The choice
does not depend on the calls succeeding: a run on a known size of at most 1024 always returns
without a hash sequence, and a run on any other input, however it ends, has begun with
`Esys_HashSequenceStart` and made no `Esys_PCR_Event` call. -/
theorem tpm_pcrevent_file_single_shot_iff {D : Type} (E : Esys D) (fuel : Nat) (c : List Nat)
    (hrc : ∀ tr e, E.rc tr e = TPM2_RC_SUCCESS) (hsh : E.shandle1 ≠ ESYS_TR_NONE)
    (hfuel : c.length < TPM2_MAX_DIGEST_BUFFER * fuel) :
    (∃ o, tpm_pcrevent_file E fuel (some c.length) (FILE.fresh c false) = some o
        ∧ ((pcrEventData o.trace = [c] ∧ Event.Esys_HashSequenceStart ∉ o.trace)
            ↔ c.length ≤ 1024)
        ∧ ((pcrEventData o.trace = [] ∧ Event.Esys_HashSequenceStart ∈ o.trace)
            ↔ 1024 < c.length))
    ∧ (∃ o, tpm_pcrevent_file E fuel none (FILE.fresh c false) = some o
        ∧ pcrEventData o.trace = [] ∧ Event.Esys_HashSequenceStart ∈ o.trace)
    ∧ (∀ (E2 : Esys D) (fuel2 n : Nat) (input : FILE), n ≤ 1024 →
        ∃ o, tpm_pcrevent_file E2 fuel2 (some n) input = some o
          ∧ Event.Esys_HashSequenceStart ∉ o.trace ∧ (pcrEventData o.trace).length ≤ 1)
    ∧ (∀ (E2 : Esys D) (fuel2 : Nat) (size : Option Nat) (input : FILE) (o : Outcome D),
        (∀ n, size = some n → 1024 < n) →
        tpm_pcrevent_file E2 fuel2 size input = some o →
        o.trace.head? = some Event.Esys_HashSequenceStart ∧ pcrEventData o.trace = []) := by
  refine ⟨?_, ?_, ?_, ?_⟩
  · by_cases hfit : c.length ≤ 1024
    · refine ⟨_, tpm_pcrevent_file_single_shot E fuel c hrc hsh hfit, ?_, ?_⟩
      · simp [pcrEventData, hfit]
      · simp [pcrEventData]
        omega
    · obtain ⟨us, last, hrun, -, -, -, -⟩ :=
        tpm_pcrevent_file_known E fuel c hrc hsh (by simp only [BUFFER_SIZE_TPM2B_EVENT]; omega)
          hfuel
      refine ⟨_, hrun, ?_, ?_⟩
      · simp [hfit]
      · simp [pcrEventData_append, pcrEventData_chunkEvents, pcrEventData]
        omega
  · obtain ⟨us, hrun, -, -, -⟩ := tpm_pcrevent_file_unknown E fuel c hrc hsh hfuel
    refine ⟨_, hrun, ?_, ?_⟩
    · simp [pcrEventData_append, pcrEventData_chunkEvents, pcrEventData]
    · simp
  · intro E2 fuel2 n input hn
    obtain ⟨o, hrun, hstart, -, -, hpcr⟩ :=
      tpm_pcrevent_file_single_shot_trace E2 fuel2 n input hn
    exact ⟨o, hrun, hstart, hpcr⟩
  · intro E2 fuel2 size input o hsize hrun
    exact tpm_pcrevent_file_streaming_trace E2 fuel2 size input o hsize hrun

/-- Witness for C6: an input of exactly 1024 bytes, the largest that is single-shot. -/
theorem tpm_pcrevent_file_single_shot_iff_witness :
    (∃ o, tpm_pcrevent_file okEsys 2 (some (List.replicate 1024 0).length)
          (FILE.fresh (List.replicate 1024 0) false) = some o
        ∧ ((pcrEventData o.trace = [List.replicate 1024 0]
              ∧ Event.Esys_HashSequenceStart ∉ o.trace)
            ↔ (List.replicate 1024 0).length ≤ 1024)
        ∧ ((pcrEventData o.trace = [] ∧ Event.Esys_HashSequenceStart ∈ o.trace)
            ↔ 1024 < (List.replicate 1024 0).length))
    ∧ (∃ o, tpm_pcrevent_file okEsys 2 none (FILE.fresh (List.replicate 1024 0) false) = some o
        ∧ pcrEventData o.trace = [] ∧ Event.Esys_HashSequenceStart ∈ o.trace)
    ∧ (∀ (E2 : Esys (List Nat)) (fuel2 n : Nat) (input : FILE), n ≤ 1024 →
        ∃ o, tpm_pcrevent_file E2 fuel2 (some n) input = some o
          ∧ Event.Esys_HashSequenceStart ∉ o.trace ∧ (pcrEventData o.trace).length ≤ 1)
    ∧ (∀ (E2 : Esys (List Nat)) (fuel2 : Nat) (size : Option Nat) (input : FILE)
        (o : Outcome (List Nat)),
        (∀ n, size = some n → 1024 < n) →
        tpm_pcrevent_file E2 fuel2 size input = some o →
        o.trace.head? = some Event.Esys_HashSequenceStart ∧ pcrEventData o.trace = []) :=
  tpm_pcrevent_file_single_shot_iff okEsys 2 (List.replicate 1024 0)
    (fun _ _ => rfl) (by decide)
    (by simp only [List.length_replicate, TPM2_MAX_DIGEST_BUFFER]; omega)

/-- The run on an input announced as 1030 bytes that ends after one full buffer: the read
of the held-back chunk fails. -/
theorem tpm_pcrevent_file_final_read_fails (a : List Nat)
    (ha : a.length = TPM2_MAX_DIGEST_BUFFER) :
    tpm_pcrevent_file okEsys 1 (some 1030) (FILE.fresh a false)
      = some { rc := Returned.tool_rc_general_error, result := none,
               trace := [Event.Esys_HashSequenceStart, Event.Esys_TR_SetAuth,
                 Event.fread a, Event.Esys_SequenceUpdate a,
                 Event.files_read_bytes 6 false] } := by
  have htake : List.take TPM2_MAX_DIGEST_BUFFER a = a := List.take_of_length_le (le_of_eq ha)
  have hdrop : List.drop TPM2_MAX_DIGEST_BUFFER a = [] := List.drop_of_length_le (le_of_eq ha)
  simp only [tpm_pcrevent_file, update_loop, fread, files_read_bytes, FILE.fresh, okEsys, htake,
    hdrop, ha]
  simp [TSS2_RC_SUCCESS, TPM2_RC_SUCCESS, TPM2_MAX_DIGEST_BUFFER, BUFFER_SIZE_TPM2B_EVENT]

/-- C10 (the code departs from it): when `files_read_bytes` fails on the single-shot path
(4 bytes announced, 2 delivered), or `ferror` is set in the update loop,
`tpm_pcrevent_file` returns `false`, which is the value of `tool_rc_success`, with no digest
set stored; `do_pcrevent_and_output` then takes the run for a success and stops at
`assert(digests)`.  Only a failing read of the held-back chunk (1030 bytes announced, 1024
delivered) is reported, as `tool_rc_general_error`. -/
theorem tpm_pcrevent_file_read_failure_returns_false :
    tpm_pcrevent_file okEsys 1 (some 4) (FILE.fresh [1, 2] false)
        = some { rc := Returned.c_false, result := none,
                 trace := [Event.files_read_bytes 4 false] }
    ∧ tpm_pcrevent_file okEsys 1 none (FILE.fresh [1, 2] true)
        = some { rc := Returned.c_false, result := none,
                 trace := [Event.Esys_HashSequenceStart, Event.Esys_TR_SetAuth,
                           Event.fread [1, 2]] }
    ∧ Returned.c_false.value tool_rc_enum = tool_rc_enum.tool_rc_success
    ∧ do_pcrevent_and_output tool_rc_enum okEsys 1 (some 4) (FILE.fresh [1, 2] false)
        = some PcrEventEnd.assert_failed
    ∧ do_pcrevent_and_output tool_rc_enum okEsys 1 none (FILE.fresh [1, 2] true)
        = some PcrEventEnd.assert_failed
    ∧ (tpm_pcrevent_file okEsys 1 (some 1030) (FILE.fresh (List.replicate 1024 0) false)).map
          (fun o => (o.rc, o.result))
        = some (Returned.tool_rc_general_error, none) := by
  refine ⟨?_, ?_, ?_, ?_, ?_, ?_⟩
  · decide
  · decide
  · decide
  · decide
  · decide
  · have hlen : (List.replicate 1024 0).length = TPM2_MAX_DIGEST_BUFFER :=
      List.length_replicate _ _
    rw [tpm_pcrevent_file_final_read_fails (List.replicate 1024 0) hlen]
    rfl


/-! ## Properties of lib/tpm2_convert.c -/

set_option maxRecDepth 100000

/-- C7: whatever `i2d_ASN1_INTEGER` produces for r and s, `extract_ecdsa` returns no buffer
when the two encodings together exceed 255 bytes; when they do not and the allocations
succeed it returns the header `0x30`, their combined length, and the two encodings; and a
buffer it returns always carries the combined length itself, at most 255, in its second
byte, never a truncation of it. -/
theorem extract_ecdsa_fails_iff_too_big (L : Asn1Lib) (R S er es : List Nat)
    (hr : L.i2d R = some er) (hs : L.i2d S = some es) :
    (0xFF < er.length + es.length → extract_ecdsa L R S = none)
    ∧ (er.length + es.length ≤ 0xFF → L.ASN1_INTEGER_new_ok = true → L.malloc_ok = true →
        extract_ecdsa L R S = some (0x30 :: (er.length + es.length) :: (er ++ es)))
    ∧ (∀ buf, extract_ecdsa L R S = some buf →
        er.length + es.length ≤ 0xFF
        ∧ buf = 0x30 :: (er.length + es.length) :: (er ++ es)) := by
  refine ⟨?_, ?_, ?_⟩
  · intro hbig
    have hbig2 : 255 < es.length + er.length := by omega
    simp [extract_ecdsa, hr, hs, hbig2]
  · intro hfit hnew hmalloc
    have hfit2 : ¬ 255 < es.length + er.length := by omega
    have hmod : (er.length + es.length) % 256 = er.length + es.length := by omega
    simp [extract_ecdsa, hr, hs, hfit2, hnew, hmalloc, hmod]
  · intro buf hbuf
    by_cases hbig : 255 < es.length + er.length
    · simp [extract_ecdsa, hr, hs, hbig] at hbuf
    · have hmod : (er.length + es.length) % 256 = er.length + es.length := by omega
      simp only [extract_ecdsa, hr, hs, hbig, hmod] at hbuf
      refine ⟨by omega, ?_⟩
      by_cases hnew : L.ASN1_INTEGER_new_ok = true <;> by_cases hmalloc : L.malloc_ok = true <;>
        simp [hnew, hmalloc] at hbuf
      exact hbuf.symm

/-- Witness for C7: r and s of 128 bytes each, the capacity of a `TPM2B_ECC_PARAMETER`, are
encoded by OpenSSL into 131 bytes each and refused; r = 1 and s = 2 are encoded. -/
theorem extract_ecdsa_fails_iff_too_big_witness :
    extract_ecdsa openssl (List.replicate 128 1) (List.replicate 128 1) = none
    ∧ extract_ecdsa openssl [1] [2]
        = some (0x30 :: ((i2d_ASN1_INTEGER [1]).length + (i2d_ASN1_INTEGER [2]).length)
            :: (i2d_ASN1_INTEGER [1] ++ i2d_ASN1_INTEGER [2])) :=
  ⟨(extract_ecdsa_fails_iff_too_big openssl (List.replicate 128 1) (List.replicate 128 1)
      (i2d_ASN1_INTEGER (List.replicate 128 1)) (i2d_ASN1_INTEGER (List.replicate 128 1))
      rfl rfl).1 (by decide),
   (extract_ecdsa_fails_iff_too_big openssl [1] [2] (i2d_ASN1_INTEGER [1])
      (i2d_ASN1_INTEGER [2]) rfl rfl).2.1 (by decide) rfl rfl⟩

/-- C3 (the code departs from it): for r and s of 64 bytes each the two INTEGER encodings
take 132 bytes together, and `extract_ecdsa` writes `0x30 0x84` in front of them.  A DER
decoder reads `0x84` as the announcement of four length octets and so finds the length
0x02400101, not 132; the DER encoding of the SEQUENCE starts `0x30 0x81 0x84`. -/
theorem extract_ecdsa_length_octet_not_der :
    extract_ecdsa openssl (List.replicate 64 1) (List.replicate 64 1)
      = some (0x30 :: 0x84 :: (i2d_ASN1_INTEGER (List.replicate 64 1)
                ++ i2d_ASN1_INTEGER (List.replicate 64 1)))
    ∧ (i2d_ASN1_INTEGER (List.replicate 64 1)
        ++ i2d_ASN1_INTEGER (List.replicate 64 1)).length = 132
    ∧ der_read_length (0x84 :: (i2d_ASN1_INTEGER (List.replicate 64 1)
          ++ i2d_ASN1_INTEGER (List.replicate 64 1))) = some 0x02400101
    ∧ der_sequence (i2d_ASN1_INTEGER (List.replicate 64 1)
          ++ i2d_ASN1_INTEGER (List.replicate 64 1))
        = 0x30 :: 0x81 :: 0x84 :: (i2d_ASN1_INTEGER (List.replicate 64 1)
            ++ i2d_ASN1_INTEGER (List.replicate 64 1)) := by
  refine ⟨?_, ?_, ?_, ?_⟩ <;> decide

/-- C2 (the code departs from it): for r and s of 64 bytes each `extract_ecdsa` succeeds,
but `pop_ecdsa` fails on its output: the length octet `0x84` makes `ASN1_get_object` consume
four more octets as the length, and the first `d2i_ASN1_INTEGER` then starts inside r. -/
theorem pop_ecdsa_rejects_extract_ecdsa_output :
    (extract_ecdsa openssl (List.replicate 64 1) (List.replicate 64 1)).isSome = true
    ∧ pop_ecdsa (extract_ecdsa openssl (List.replicate 64 1) (List.replicate 64 1)) = none := by
  refine ⟨?_, ?_⟩ <;> decide


/-- Where the two INTEGER encodings take at most 127 bytes together, the one-octet length is
the DER length and the output of `extract_ecdsa` is the DER SEQUENCE of the two. -/
theorem extract_ecdsa_is_der_sequence (r s : List Nat)
    (hfit : (i2d_ASN1_INTEGER r).length + (i2d_ASN1_INTEGER s).length ≤ 127) :
    extract_ecdsa openssl r s
      = some (der_sequence (i2d_ASN1_INTEGER r ++ i2d_ASN1_INTEGER s)) := by
  have hsum : ¬ (i2d_ASN1_INTEGER s).length + (i2d_ASN1_INTEGER r).length > 255 := by omega
  have hmod : ((i2d_ASN1_INTEGER r).length + (i2d_ASN1_INTEGER s).length) % 256
      = (i2d_ASN1_INTEGER r).length + (i2d_ASN1_INTEGER s).length := by omega
  simp [extract_ecdsa, openssl, hsum, hmod, der_sequence, asn1_put_length, hfit]

theorem c2i_ibuf_i2c (r : List Nat) (hr : ∃ b bs, r = b :: bs ∧ b ≠ 0 ∧ b < 256) :
    c2i_ibuf (i2c_ASN1_INTEGER r) = some r := by
  obtain ⟨b, bs, rfl, hb0, hb⟩ := hr
  by_cases hhigh : b > 127
  · have h1 : b ≥ 128 := by omega
    simp [i2c_ASN1_INTEGER, hhigh, c2i_ibuf, h1]
  · cases bs with
    | nil =>
      have h1 : ¬ b ≥ 128 := by omega
      simp [i2c_ASN1_INTEGER, hhigh, c2i_ibuf, h1]
    | cons b1 more =>
      have h1 : ¬ b ≥ 128 := by omega
      have h2 : b ≠ 255 := by omega
      simp [i2c_ASN1_INTEGER, hhigh, c2i_ibuf, h1, h2, hb0]

theorem ASN1_get_object_short (b t omax : Nat) (body : List Nat)
    (hb : b % 0x20 ≠ 0x1f) (ht : t < 0x80) (hfit : t + 2 ≤ omax) :
    ASN1_get_object (b :: t :: body) omax
      = some { ret := b / 0x20 % 2 * 0x20, tag := b % 0x20, xclass := b / 0x40 % 4 * 0x40,
               len := t, rest := body } := by
  have h0 : omax ≠ 0 := by omega
  have h1 : omax - 1 ≠ 0 := by omega
  have h2 : ¬ omax - 1 < 1 := by omega
  have h3 : t ≠ 0x80 := by omega
  have h4 : ¬ t > omax - 2 := by omega
  simp only [ASN1_get_object, h0, if_false, V_ASN1_PRIMITIVE_TAG, hb, h1, asn1_get_length, h2, h3,
    ht, if_true, Bool.false_and, Bool.false_eq_true, List.length_cons]
  have h5 : body.length + 1 + 1 - body.length = 2 := by omega
  simp [h5, h4]

theorem i2d_ASN1_INTEGER_short (r : List Nat) (h : (i2c_ASN1_INTEGER r).length ≤ 127) :
    i2d_ASN1_INTEGER r = 2 :: (i2c_ASN1_INTEGER r).length :: i2c_ASN1_INTEGER r := by
  simp [i2d_ASN1_INTEGER, asn1_put_length, h, V_ASN1_INTEGER]

theorem d2i_ASN1_INTEGER_i2d (r tail : List Nat) (len : Nat)
    (hr : ∃ b bs, r = b :: bs ∧ b ≠ 0 ∧ b < 256)
    (hshort : (i2c_ASN1_INTEGER r).length ≤ 127)
    (hlen : (i2c_ASN1_INTEGER r).length + 2 ≤ len) :
    d2i_ASN1_INTEGER (i2d_ASN1_INTEGER r ++ tail) len = some (r, tail) := by
  rw [i2d_ASN1_INTEGER_short r hshort]
  simp only [List.cons_append]
  rw [d2i_ASN1_INTEGER, ASN1_get_object_short 2 _ len _ (by decide) (by omega) hlen]
  simp [V_ASN1_INTEGER, c2i_ibuf_i2c r hr]

/-- Where the one-octet length is a DER length (the two INTEGER encodings take at most 127
bytes together) and r and s are magnitudes without leading zero byte, `pop_ecdsa` reads back
from the output of `extract_ecdsa` exactly r and s. -/
theorem pop_ecdsa_extract_ecdsa (r s : List Nat)
    (hr : ∃ b bs, r = b :: bs ∧ b ≠ 0 ∧ b < 256)
    (hs : ∃ b bs, s = b :: bs ∧ b ≠ 0 ∧ b < 256)
    (hfit : (i2d_ASN1_INTEGER r).length + (i2d_ASN1_INTEGER s).length ≤ 127) :
    pop_ecdsa (extract_ecdsa openssl r s) = some (r, s) := by
  have hlr : (i2d_ASN1_INTEGER r).length = (i2c_ASN1_INTEGER r).length + 1
      + (asn1_put_length (i2c_ASN1_INTEGER r).length).length := by
    simp [i2d_ASN1_INTEGER]; omega
  have hls : (i2d_ASN1_INTEGER s).length = (i2c_ASN1_INTEGER s).length + 1
      + (asn1_put_length (i2c_ASN1_INTEGER s).length).length := by
    simp [i2d_ASN1_INTEGER]; omega
  have hcr : (i2c_ASN1_INTEGER r).length ≤ 127 := by omega
  have hcs : (i2c_ASN1_INTEGER s).length ≤ 127 := by omega
  have hlr2 : (i2d_ASN1_INTEGER r).length = (i2c_ASN1_INTEGER r).length + 2 := by
    rw [i2d_ASN1_INTEGER_short r hcr]; simp
  have hls2 : (i2d_ASN1_INTEGER s).length = (i2c_ASN1_INTEGER s).length + 2 := by
    rw [i2d_ASN1_INTEGER_short s hcs]; simp
  have hsum : ¬ (i2d_ASN1_INTEGER s).length + (i2d_ASN1_INTEGER r).length > 255 := by omega
  have hmod : ((i2d_ASN1_INTEGER r).length + (i2d_ASN1_INTEGER s).length) % 256
      = (i2d_ASN1_INTEGER r).length + (i2d_ASN1_INTEGER s).length := by omega
  have hext : extract_ecdsa openssl r s
      = some (0x30 :: ((i2d_ASN1_INTEGER r).length + (i2d_ASN1_INTEGER s).length)
          :: (i2d_ASN1_INTEGER r ++ i2d_ASN1_INTEGER s)) := by
    simp [extract_ecdsa, openssl, hsum, hmod]
  rw [hext]
  have hcap : (0x30 :: ((i2d_ASN1_INTEGER r).length + (i2d_ASN1_INTEGER s).length)
      :: (i2d_ASN1_INTEGER r ++ i2d_ASN1_INTEGER s)).length ≤ TPM2_MAX_DIGEST_BUFFER := by
    simp [TPM2_MAX_DIGEST_BUFFER]; omega
  simp only [pop_ecdsa, files_load_bytes_from_path, hcap, if_true, List.cons_append]
  rw [ASN1_get_object_short 0x30 _ _ _ (by decide) (by omega) (by simp)]
  simp only [List.append_assoc]
  rw [d2i_ASN1_INTEGER_i2d r _ _ hr hcr (by omega)]
  simp only []
  rw [d2i_ASN1_INTEGER_i2d s _ _ hs hcs (by omega)]
  simp [V_ASN1_CONSTRUCTED, V_ASN1_SEQUENCE]


/-- C8: for an HMAC signature `tpm2_convert_sig` returns `NULL` when the hash size of the
algorithm is 0 (algorithm unknown); when it is not 0 (and `malloc` delivers, and the digest
union holds that many bytes) it stores the hash size through `size` and returns a buffer of
exactly that many bytes, the first bytes of the digest. -/
theorem tpm2_convert_sig_hmac (L : Asn1Lib) (get_hash_size : Nat → Nat) (hashAlg : Nat)
    (digest : List Nat) :
    (get_hash_size hashAlg = 0 →
        tpm2_convert_sig L get_hash_size (TPMT_SIGNATURE.hmac hashAlg digest) = none)
    ∧ (get_hash_size hashAlg ≠ 0 → L.malloc_ok = true → get_hash_size hashAlg ≤ digest.length →
        tpm2_convert_sig L get_hash_size (TPMT_SIGNATURE.hmac hashAlg digest)
            = some (get_hash_size hashAlg, digest.take (get_hash_size hashAlg))
        ∧ (digest.take (get_hash_size hashAlg)).length = get_hash_size hashAlg) := by
  refine ⟨?_, ?_⟩
  · intro h0
    simp [tpm2_convert_sig, h0]
  · intro hne hmalloc hle
    refine ⟨?_, ?_⟩
    · simp [tpm2_convert_sig, hne, hmalloc]
    · rw [List.length_take]
      omega

/-- Witness for C8: with SHA-256 (algorithm 0x000B) of size 32 and every other algorithm
unknown, the HMAC signature yields the first 32 bytes of its digest, and one over the
unknown algorithm 0x000C yields `NULL`. -/
theorem tpm2_convert_sig_hmac_witness :
    (tpm2_convert_sig openssl (fun a => if a = 0x000B then 32 else 0)
          (TPMT_SIGNATURE.hmac 0x000B (List.range 64))
        = some ((fun a : Nat => if a = 0x000B then 32 else 0) 0x000B,
            (List.range 64).take ((fun a : Nat => if a = 0x000B then 32 else 0) 0x000B))
      ∧ ((List.range 64).take ((fun a : Nat => if a = 0x000B then 32 else 0) 0x000B)).length
        = (fun a : Nat => if a = 0x000B then 32 else 0) 0x000B)
    ∧ tpm2_convert_sig openssl (fun a => if a = 0x000B then 32 else 0)
          (TPMT_SIGNATURE.hmac 0x000C (List.range 64)) = none :=
  ⟨(tpm2_convert_sig_hmac openssl (fun a => if a = 0x000B then 32 else 0) 0x000B
      (List.range 64)).2 (by decide) rfl (by decide),
   (tpm2_convert_sig_hmac openssl (fun a => if a = 0x000B then 32 else 0) 0x000C
      (List.range 64)).1 rfl⟩

theorem BN_bin2bn_foldl (s : List Nat) (acc : Nat) :
    s.foldl (fun acc b => acc * 256 + b) acc = acc * 256 ^ s.length + beValue s := by
  induction s generalizing acc with
  | nil => simp [beValue]
  | cons b bs ih =>
    simp only [List.foldl_cons, ih, beValue, List.length_cons]
    ring

/-- The number `BN_bin2bn` builds is the big-endian value of the bytes. -/
theorem BN_bin2bn_eq_beValue (s : List Nat) : BN_bin2bn s = beValue s := by
  simp [BN_bin2bn, BN_bin2bn_foldl]

theorem swapped_bytes (b0 b1 b2 b3 : Nat) (h0 : b0 < 256) (h1 : b1 < 256) (h2 : b2 < 256)
    (h3 : b3 < 256) :
    [(((b0 * 256 + b1) * 256 + b2) * 256 + b3) % 256,
     (((b0 * 256 + b1) * 256 + b2) * 256 + b3) / 2 ^ 8 % 256,
     (((b0 * 256 + b1) * 256 + b2) * 256 + b3) / 2 ^ 16 % 256,
     (((b0 * 256 + b1) * 256 + b2) * 256 + b3) / 2 ^ 24 % 256] = [b3, b2, b1, b0] := by
  simp only [List.cons.injEq, and_true]
  norm_num
  refine ⟨?_, ?_, ?_, ?_⟩ <;> omega

/-- After the host-to-network conversion the memory of the exponent holds its four bytes
most significant first, on either kind of host. -/
theorem uint32_memory_hton (big_endian : Bool) (x : Nat) :
    uint32_memory big_endian (tpm2_util_hton_32 big_endian x)
      = [x / 2 ^ 24 % 256, x / 2 ^ 16 % 256, x / 2 ^ 8 % 256, x % 256] := by
  cases big_endian
  · simp only [tpm2_util_hton_32, uint32_memory, uint32_of_memory, BN_bin2bn]
    simp only [Bool.false_eq_true, if_false, List.reverse_cons, List.reverse_nil, List.nil_append,
      List.cons_append, List.foldl_cons, List.foldl_nil, Nat.zero_mul, Nat.zero_add]
    exact swapped_bytes _ _ _ _ (Nat.mod_lt _ (by norm_num)) (Nat.mod_lt _ (by norm_num))
      (Nat.mod_lt _ (by norm_num)) (Nat.mod_lt _ (by norm_num))
  · simp [tpm2_util_hton_32, uint32_memory]

/-- The big-endian value of the four bytes of a 32-bit number is the number. -/
theorem beValue_uint32_bytes (x : Nat) (hx : x < 2 ^ 32) :
    beValue [x / 2 ^ 24 % 256, x / 2 ^ 16 % 256, x / 2 ^ 8 % 256, x % 256] = x := by
  simp only [beValue, List.length_cons, List.length_nil]
  norm_num
  omega

/-- C9: when `convert_pubkey_RSA` reaches the encoder (allocations succeeding, format PEM or
DER), the modulus it hands over is the unsigned big-endian value of the descriptor's modulus
bytes and the exponent is the descriptor's 32-bit exponent, or 0x10001 when that field is 0;
on a host of either byte order the four bytes that `BN_bin2bn` reads after the
host-to-network conversion are the exponent's bytes most significant first, and their
big-endian value is the exponent. -/
theorem convert_pubkey_RSA_key (big_endian : Bool) (L : RsaLib) (pub : TPMT_PUBLIC_RSA)
    (format : tpm2_convert_pubkey_fmt)
    (hexp : pub.exponent < 2 ^ 32)
    (hnew : L.RSA_new_ok = true) (hbn : L.BN_bin2bn_ok = true)
    (hset : L.RSA_set0_key_ok = true)
    (hfmt : format = tpm2_convert_pubkey_fmt.pubkey_format_pem
      ∨ format = tpm2_convert_pubkey_fmt.pubkey_format_der) :
    (convert_pubkey_RSA big_endian L pub format).encoded
        = some (format, beValue pub.modulus,
            if pub.exponent = 0 then 0x10001 else pub.exponent)
    ∧ uint32_memory big_endian
          (tpm2_util_hton_32 big_endian (if pub.exponent = 0 then 0x10001 else pub.exponent))
        = uint32_memory true (if pub.exponent = 0 then 0x10001 else pub.exponent)
    ∧ beValue (uint32_memory big_endian
          (tpm2_util_hton_32 big_endian (if pub.exponent = 0 then 0x10001 else pub.exponent)))
        = (if pub.exponent = 0 then 0x10001 else pub.exponent) := by
  have hlt : (if pub.exponent = 0 then 0x10001 else pub.exponent) < 2 ^ 32 := by
    split
    · norm_num
    · exact hexp
  have he : BN_bin2bn (uint32_memory big_endian (tpm2_util_hton_32 big_endian
      (if pub.exponent = 0 then 0x10001 else pub.exponent)))
      = (if pub.exponent = 0 then 0x10001 else pub.exponent) := by
    rw [uint32_memory_hton, BN_bin2bn_eq_beValue, beValue_uint32_bytes _ hlt]
  refine ⟨?_, ?_, ?_⟩
  · rcases hfmt with h | h <;>
      simp only [convert_pubkey_RSA, hnew, hbn, hset, h, he, BN_bin2bn_eq_beValue,
        Bool.not_true, Bool.false_eq_true, if_false]
  · rw [uint32_memory_hton]
    simp [uint32_memory]
  · rw [← BN_bin2bn_eq_beValue]
    exact he

/-- Witness for C9: exponent field 0 and a three-byte modulus on a little-endian host. -/
theorem convert_pubkey_RSA_key_witness :
    (convert_pubkey_RSA false
          { RSA_new_ok := true, BN_bin2bn_ok := true, RSA_set0_key_ok := true,
            ssl_res := fun _ _ _ => 1 }
          { exponent := 0, modulus := [1, 0, 1] }
          tpm2_convert_pubkey_fmt.pubkey_format_der).encoded
        = some (tpm2_convert_pubkey_fmt.pubkey_format_der, beValue [1, 0, 1],
            if (0 : Nat) = 0 then 0x10001 else 0)
    ∧ uint32_memory false (tpm2_util_hton_32 false (if (0 : Nat) = 0 then 0x10001 else 0))
        = uint32_memory true (if (0 : Nat) = 0 then 0x10001 else 0)
    ∧ beValue (uint32_memory false
          (tpm2_util_hton_32 false (if (0 : Nat) = 0 then 0x10001 else 0)))
        = (if (0 : Nat) = 0 then 0x10001 else 0) :=
  convert_pubkey_RSA_key false
    { RSA_new_ok := true, BN_bin2bn_ok := true, RSA_set0_key_ok := true,
      ssl_res := fun _ _ _ => 1 }
    { exponent := 0, modulus := [1, 0, 1] }
    tpm2_convert_pubkey_fmt.pubkey_format_der (by norm_num) rfl rfl rfl (Or.inr rfl)


/-! ## Properties of signature loading, sequence release and hierarchy parsing -/

/-- C11: for the Plain format `tpm2_convert_sig_load` returns false without reading the
source for every algorithm other than RSASSA and ECDSA, RSAPSS and HMAC among them, so that
it succeeds only for those two; for RSASSA a source of at most 512 bytes is stored unchanged
as the signature, tagged with the given hash algorithm. -/
theorem tpm2_convert_sig_load_plain
    (files_load_signature : Option (List Nat) → Option TPMT_SIGNATURE)
    (file : Option (List Nat)) (sig_alg halg : Nat) :
    (sig_alg ≠ TPM2_ALG_RSASSA → sig_alg ≠ TPM2_ALG_ECDSA →
        tpm2_convert_sig_load files_load_signature file
            tpm2_convert_sig_fmt.signature_format_plain sig_alg halg
          = { ret := false, signature := none, source_read := false })
    ∧ tpm2_convert_sig_load files_load_signature file
          tpm2_convert_sig_fmt.signature_format_plain TPM2_ALG_RSAPSS halg
        = { ret := false, signature := none, source_read := false }
    ∧ tpm2_convert_sig_load files_load_signature file
          tpm2_convert_sig_fmt.signature_format_plain TPM2_ALG_HMAC halg
        = { ret := false, signature := none, source_read := false }
    ∧ ((tpm2_convert_sig_load files_load_signature file
            tpm2_convert_sig_fmt.signature_format_plain sig_alg halg).ret = true →
        sig_alg = TPM2_ALG_RSASSA ∨ sig_alg = TPM2_ALG_ECDSA)
    ∧ (∀ bytes, file = some bytes → bytes.length ≤ TPM2_MAX_RSA_KEY_BYTES →
        tpm2_convert_sig_load files_load_signature file
            tpm2_convert_sig_fmt.signature_format_plain TPM2_ALG_RSASSA halg
          = { ret := true, signature := some (TPMT_SIGNATURE.rsassa halg bytes),
              source_read := true }) := by
  refine ⟨?_, ?_, ?_, ?_, ?_⟩
  · intro h1 h2
    simp [tpm2_convert_sig_load, sig_load, h1, h2]
  · simp [tpm2_convert_sig_load, sig_load, TPM2_ALG_RSAPSS, TPM2_ALG_RSASSA, TPM2_ALG_ECDSA]
  · simp [tpm2_convert_sig_load, sig_load, TPM2_ALG_HMAC, TPM2_ALG_RSASSA, TPM2_ALG_ECDSA]
  · intro hret
    by_cases h1 : sig_alg = TPM2_ALG_RSASSA
    · exact Or.inl h1
    · by_cases h2 : sig_alg = TPM2_ALG_ECDSA
      · exact Or.inr h2
      · simp [tpm2_convert_sig_load, sig_load, h1, h2] at hret
  · intro bytes hfile hlen
    simp [tpm2_convert_sig_load, sig_load, files_load_bytes_from_path, hfile, hlen]

/-- Witness for C11: a three-byte source, loaded as RSASSA with SHA-256 (0x000B) and
refused, unread, as RSAPSS. -/
theorem tpm2_convert_sig_load_plain_witness :
    tpm2_convert_sig_load (fun _ => none) (some [1, 2, 3])
          tpm2_convert_sig_fmt.signature_format_plain TPM2_ALG_RSASSA 0x000B
        = { ret := true, signature := some (TPMT_SIGNATURE.rsassa 0x000B [1, 2, 3]),
            source_read := true }
    ∧ tpm2_convert_sig_load (fun _ => none) (some [1, 2, 3])
          tpm2_convert_sig_fmt.signature_format_plain TPM2_ALG_RSAPSS 0x000B
        = { ret := false, signature := none, source_read := false } :=
  ⟨(tpm2_convert_sig_load_plain (fun _ => none) (some [1, 2, 3]) TPM2_ALG_RSASSA 0x000B).2.2.2.2
      [1, 2, 3] rfl (by decide),
   (tpm2_convert_sig_load_plain (fun _ => none) (some [1, 2, 3]) TPM2_ALG_RSASSA 0x000B).2.1⟩

/-- C14 (the code departs from it): on a 138-byte source holding the SEQUENCE of an INTEGER
r of 129 content bytes and the INTEGER 1, `pop_ecdsa` succeeds and stores 129 bytes and the
size 129 for r, one more than the 128 bytes `signatureR.buffer` holds. -/
theorem pop_ecdsa_copies_beyond_capacity :
    pop_ecdsa (some ([0x30, 0x81, 0x87, 0x02, 0x81, 0x81] ++ List.replicate 129 1 ++ [2, 1, 1]))
        = some (List.replicate 129 1, [1])
    ∧ ([0x30, 0x81, 0x87, 0x02, 0x81, 0x81] ++ List.replicate 129 1 ++ [2, 1, 1]).length ≤ 1024
    ∧ TPM2_MAX_ECC_KEY_BYTES < (List.replicate 129 1).length := by
  refine ⟨?_, ?_, ?_⟩ <;> decide

/-- The letters of `tpm2_hierarchy_from_optarg` obey the flags: each succeeds exactly when
its flag bit is set, and then yields the handle of its hierarchy. -/
theorem tpm2_hierarchy_from_optarg_letters (F : HierarchyFlagBits)
    (string_to_uint32 : String → Option Nat) (flags : Nat) :
    (tpm2_hierarchy_from_optarg F string_to_uint32 (some "o") flags
        = if flags &&& F.TPM2_HIERARCHY_FLAGS_O = 0 then none else some TPM2_RH_OWNER)
    ∧ (tpm2_hierarchy_from_optarg F string_to_uint32 (some "p") flags
        = if flags &&& F.TPM2_HIERARCHY_FLAGS_P = 0 then none else some TPM2_RH_PLATFORM)
    ∧ (tpm2_hierarchy_from_optarg F string_to_uint32 (some "e") flags
        = if flags &&& F.TPM2_HIERARCHY_FLAGS_E = 0 then none else some TPM2_RH_ENDORSEMENT)
    ∧ (tpm2_hierarchy_from_optarg F string_to_uint32 (some "n") flags
        = if flags &&& F.TPM2_HIERARCHY_FLAGS_N = 0 then none else some TPM2_RH_NULL) := by
  refine ⟨?_, ?_, ?_, ?_⟩ <;> simp [tpm2_hierarchy_from_optarg]

/-- C13 (the code departs from it): the numerical string `0x40000001` is parsed with success
to `TPM2_RH_OWNER` although `flags` holds only the platform bit, and even when `flags` is 0:
the numerical branch never looks at `flags`.  The letter `o` is refused under the same
flags. -/
theorem tpm2_hierarchy_from_optarg_number_ignores_flags :
    tpm2_hierarchy_from_optarg hierarchy_flag_bits tpm2_util_string_to_uint32
        (some "0x40000001") hierarchy_flag_bits.TPM2_HIERARCHY_FLAGS_P = some TPM2_RH_OWNER
    ∧ hierarchy_flag hierarchy_flag_bits TPM2_RH_OWNER
        = some hierarchy_flag_bits.TPM2_HIERARCHY_FLAGS_O
    ∧ hierarchy_flag_bits.TPM2_HIERARCHY_FLAGS_P &&& hierarchy_flag_bits.TPM2_HIERARCHY_FLAGS_O
        = 0
    ∧ tpm2_hierarchy_from_optarg hierarchy_flag_bits tpm2_util_string_to_uint32
        (some "0x40000001") 0 = some TPM2_RH_OWNER
    ∧ tpm2_hierarchy_from_optarg hierarchy_flag_bits tpm2_util_string_to_uint32
        (some "o") hierarchy_flag_bits.TPM2_HIERARCHY_FLAGS_P = none := by
  refine ⟨?_, ?_, ?_, ?_, ?_⟩ <;> decide

/-- Whatever the TPM and the stream do, the loop issues no `Esys_EventSequenceComplete`, and
when it returns early it returns something other than `tool_rc_success` and stores no
digest set. -/
theorem update_loop_no_complete {D : Type} (E : Esys D) (use_left : Bool) :
    ∀ (fuel left : Nat) (input : FILE) (tr : List Event)
      (res : Except (Outcome D) (Nat × FILE × List Event)),
      update_loop E use_left fuel left input tr = some res →
      ∃ evs, completeData evs = [] ∧ loopTrace res = tr ++ evs
        ∧ (∀ o, res = Except.error o → o.rc ≠ Returned.tool_rc_success ∧ o.result = none) := by
  intro fuel
  induction fuel with
  | zero =>
    intro left input tr res h
    simp [update_loop] at h
  | succ fuel ih =>
    intro left input tr res h
    have hstep : ∀ left2 input2,
        update_loop E use_left fuel left2 input2
            (tr ++ [Event.fread (fread TPM2_MAX_DIGEST_BUFFER input).1]
              ++ [Event.Esys_SequenceUpdate (fread TPM2_MAX_DIGEST_BUFFER input).1])
          = some res →
        ∃ evs, completeData evs = [] ∧ loopTrace res = tr ++ evs
          ∧ (∀ o, res = Except.error o → o.rc ≠ Returned.tool_rc_success ∧ o.result = none) := by
      intro left2 input2 h2
      obtain ⟨evs, hevs, hres, hrc⟩ := ih left2 input2 _ res h2
      refine ⟨Event.fread (fread TPM2_MAX_DIGEST_BUFFER input).1
          :: Event.Esys_SequenceUpdate (fread TPM2_MAX_DIGEST_BUFFER input).1 :: evs,
        by simpa [completeData] using hevs, ?_, hrc⟩
      simpa using hres
    simp only [update_loop] at h
    split at h
    · cases h
      refine ⟨[Event.fread (fread TPM2_MAX_DIGEST_BUFFER input).1], rfl, rfl, ?_⟩
      intro o ho
      cases ho
      exact ⟨by simp, rfl⟩
    · split at h
      · cases h
        refine ⟨[Event.fread (fread TPM2_MAX_DIGEST_BUFFER input).1,
            Event.Esys_SequenceUpdate (fread TPM2_MAX_DIGEST_BUFFER input).1], rfl,
          by simp [loopTrace], ?_⟩
        intro o ho
        cases ho
        exact ⟨by simp, rfl⟩
      · split at h
        · split at h
          · cases h
            exact ⟨[Event.fread (fread TPM2_MAX_DIGEST_BUFFER input).1,
                Event.Esys_SequenceUpdate (fread TPM2_MAX_DIGEST_BUFFER input).1], rfl,
              by simp [loopTrace], by intro o ho; cases ho⟩
          · exact hstep _ _ h
        · split at h
          · cases h
            exact ⟨[Event.fread (fread TPM2_MAX_DIGEST_BUFFER input).1,
                Event.Esys_SequenceUpdate (fread TPM2_MAX_DIGEST_BUFFER input).1], rfl,
              by simp [loopTrace], by intro o ho; cases ho⟩
          · exact hstep _ _ h

/-- A run that goes the streaming way with `Esys_HashSequenceStart` succeeding goes on to
`Esys_TR_SetAuth`: these are its first two calls, however it ends. -/
theorem tpm_pcrevent_file_streaming_first_calls {D : Type} (E : Esys D) (fuel : Nat)
    (size : Option Nat) (input : FILE) (o : Outcome D)
    (hsize : ∀ n, size = some n → BUFFER_SIZE_TPM2B_EVENT < n)
    (hstart : E.rc [] Event.Esys_HashSequenceStart = TPM2_RC_SUCCESS)
    (hrun : tpm_pcrevent_file E fuel size input = some o) :
    ∃ rest, o.trace = Event.Esys_HashSequenceStart :: Event.Esys_TR_SetAuth :: rest := by
  have hcond : (size.isSome && decide (size.getD 0 ≤ BUFFER_SIZE_TPM2B_EVENT)) = false := by
    cases size with
    | none => rfl
    | some n =>
      have := hsize n rfl
      simp; omega
  simp only [tpm_pcrevent_file, hcond, Bool.false_eq_true, if_false, hstart, ne_eq,
    not_true_eq_false] at hrun
  split at hrun
  · cases hrun
    exact ⟨[], rfl⟩
  · split at hrun
    · cases hrun
    · next o2 hloop =>
      obtain ⟨evs, -, hres, -⟩ := update_loop_no_complete E _ _ _ _ _ _ hloop
      cases hrun
      simp only [loopTrace] at hres
      exact ⟨evs, by rw [hres]; rfl⟩
    · next left input2 tr2 hloop =>
      obtain ⟨evs, -, hres, -⟩ := update_loop_no_complete E _ _ _ _ _ _ hloop
      simp only [loopTrace] at hres
      subst hres
      have hpre : ∀ more : List Event,
          ∃ rest, ([Event.Esys_HashSequenceStart] ++ [Event.Esys_TR_SetAuth] ++ evs) ++ more
            = Event.Esys_HashSequenceStart :: Event.Esys_TR_SetAuth :: rest :=
        fun more => ⟨evs ++ more, rfl⟩
      have hpre0 := hpre []
      rw [List.append_nil] at hpre0
      cases size with
      | none =>
        simp only [Option.isSome_none, Bool.false_and, Bool.false_eq_true, if_false] at hrun
        split at hrun
        · cases hrun; exact hpre0
        · split at hrun
          · cases hrun; exact hpre [_]
          · cases hrun; exact hpre [_]
      | some n =>
        simp only [Option.isSome_some, Bool.true_and, if_true] at hrun
        split at hrun
        · cases hrun; exact hpre [_]
        · split at hrun
          · cases hrun; exact hpre [_]
          · split at hrun
            · cases hrun
              obtain ⟨rest, hrest⟩ := hpre [Event.files_read_bytes left
                (files_read_bytes input2 left).1]
              exact ⟨rest
                  ++ [Event.Esys_EventSequenceComplete (files_read_bytes input2 left).2.1],
                by simp only [hrest]; rfl⟩
            · cases hrun
              obtain ⟨rest, hrest⟩ := hpre [Event.files_read_bytes left
                (files_read_bytes input2 left).1]
              exact ⟨rest
                  ++ [Event.Esys_EventSequenceComplete (files_read_bytes input2 left).2.1],
                by simp only [hrest]; rfl⟩

/-- C12, as stated, fails: with `Esys_HashSequenceStart` succeeding and `Esys_TR_SetAuth`
failing the function returns the translated failure code right after these two calls, and
with no session handle found it returns `tool_rc_general_error` after the update loop; in
neither run is the started sequence completed, and no other call is made on it. -/
theorem tpm_pcrevent_file_leaves_sequence_open :
    tpm_pcrevent_file
        { rc := fun _ e => if e = Event.Esys_TR_SetAuth then 1 else TSS2_RC_SUCCESS,
          digests := fun m => m, shandle1 := ESYS_TR_PASSWORD }
        1 none (FILE.fresh [1, 2] false)
      = some { rc := Returned.tool_rc_from_tpm 1, result := none,
               trace := [Event.Esys_HashSequenceStart, Event.Esys_TR_SetAuth] }
    ∧ tpm_pcrevent_file
        { rc := fun _ _ => TSS2_RC_SUCCESS, digests := fun m => m, shandle1 := ESYS_TR_NONE }
        1 none (FILE.fresh [1, 2] false)
      = some { rc := Returned.tool_rc_general_error, result := none,
               trace := [Event.Esys_HashSequenceStart, Event.Esys_TR_SetAuth,
                         Event.fread [1, 2], Event.Esys_SequenceUpdate [1, 2]] } := by
  refine ⟨?_, ?_⟩ <;> decide

theorem callsSucceeded_append {D : Type} (E : Esys D) (pre a b : List Event) :
    callsSucceeded E pre (a ++ b)
      = (callsSucceeded E pre a && callsSucceeded E (pre ++ a) b) := by
  induction a generalizing pre with
  | nil => simp [callsSucceeded]
  | cons e es ih =>
    simp [callsSucceeded, ih, Bool.and_assoc]

/-- A call inside a trace whose calls all succeeded has itself succeeded. -/
theorem callsSucceeded_at {D : Type} (E : Esys D) (pre p q : List Event) (e : Event)
    (h : callsSucceeded E pre (p ++ e :: q) = true) (hcall : e.isRead = false) :
    E.rc (pre ++ p) e = TSS2_RC_SUCCESS := by
  rw [callsSucceeded_append] at h
  simp only [callsSucceeded, hcall, Bool.false_or, Bool.and_eq_true, beq_iff_eq] at h
  exact h.2.1

/-- With the size unknown the loop comes to an end, whatever the TPM answers, once the fuel
covers the chunks of the stream. -/
theorem update_loop_total_unknown {D : Type} (E : Esys D) (left : Nat) (b : Bool) :
    ∀ (fuel : Nat) (c : List Nat) (tr : List Event),
      c.length < TPM2_MAX_DIGEST_BUFFER * fuel →
      ∃ res, update_loop E false fuel left ⟨c, b, false, false⟩ tr = some res := by
  intro fuel
  induction fuel with
  | zero =>
    intro c tr h
    omega
  | succ fuel ih =>
    intro c tr h
    simp only [update_loop, fread]
    split
    · exact ⟨_, rfl⟩
    · split
      · exact ⟨_, rfl⟩
      · simp only [Bool.false_eq_true, if_false]
        split
        · exact ⟨_, rfl⟩
        · next herr _ heof =>
          have hfull : ¬ (c.take TPM2_MAX_DIGEST_BUFFER).length < TPM2_MAX_DIGEST_BUFFER := by
            intro hshort
            cases b <;> simp [hshort] at herr heof
            all_goals
              rw [List.length_take] at hshort
              simp only [TPM2_MAX_DIGEST_BUFFER] at *
              omega
          have hd : decide ((c.take TPM2_MAX_DIGEST_BUFFER).length < TPM2_MAX_DIGEST_BUFFER)
              = false := decide_eq_false hfull
          simp only [hd, Bool.false_and, Bool.or_false]
          apply ih
          rw [List.length_take] at hfull
          rw [List.length_drop]
          simp only [TPM2_MAX_DIGEST_BUFFER] at *
          omega

/-- With the size known and above one buffer the loop comes to an end, whatever the TPM
answers, when the stream ends in an error or holds all but at most the last buffer of the
announced bytes. -/
theorem update_loop_total_known {D : Type} (E : Esys D) (b : Bool) :
    ∀ (fuel : Nat) (c : List Nat) (left : Nat) (tr : List Event),
      c.length < TPM2_MAX_DIGEST_BUFFER * fuel →
      (b = true ∨ left ≤ c.length + TPM2_MAX_DIGEST_BUFFER) →
      ∃ res, update_loop E true fuel left ⟨c, b, false, false⟩ tr = some res := by
  intro fuel
  induction fuel with
  | zero =>
    intro c left tr h
    omega
  | succ fuel ih =>
    intro c left tr h hterm
    simp only [update_loop, fread]
    split
    · exact ⟨_, rfl⟩
    · split
      · exact ⟨_, rfl⟩
      · simp only [if_true]
        split
        · exact ⟨_, rfl⟩
        · next herr _ hleft =>
          have hfull : ¬ (c.take TPM2_MAX_DIGEST_BUFFER).length < TPM2_MAX_DIGEST_BUFFER := by
            intro hshort
            rcases hterm with hb | hle
            · subst hb
              simp [hshort] at herr
              rw [List.length_take] at hshort
              simp only [TPM2_MAX_DIGEST_BUFFER] at *
              omega
            · rw [List.length_take] at hshort hleft
              simp only [TPM2_MAX_DIGEST_BUFFER] at *
              omega
          have hd : decide ((c.take TPM2_MAX_DIGEST_BUFFER).length < TPM2_MAX_DIGEST_BUFFER)
              = false := decide_eq_false hfull
          simp only [hd, Bool.false_and, Bool.or_false]
          apply ih
          · rw [List.length_take] at hfull
            rw [List.length_drop]
            simp only [TPM2_MAX_DIGEST_BUFFER] at *
            omega
          · rcases hterm with hb | hle
            · exact Or.inl hb
            · right
              rw [List.length_take] at hfull ⊢
              rw [List.length_drop]
              simp only [TPM2_MAX_DIGEST_BUFFER] at *
              omega

/-- What holds when the loop is left in the ordinary way: it has added reads and
`Esys_SequenceUpdate` calls only, every one of these calls succeeded, with the size unknown
the stream has ended without error, and with the size known `left` has gone down by what was
read. -/
theorem update_loop_ok_facts {D : Type} (E : Esys D) (use_left : Bool) :
    ∀ (fuel left : Nat) (input : FILE) (tr : List Event) (l : Nat) (f : FILE) (t : List Event),
      update_loop E use_left fuel left input tr = some (Except.ok (l, f, t)) →
      ∃ evs, t = tr ++ evs ∧ completeData evs = [] ∧ callsSucceeded E tr evs = true
        ∧ f.fails = input.fails
        ∧ (use_left = false → input.eof = false → input.fails = false)
        ∧ (use_left = true → TPM2_MAX_DIGEST_BUFFER < left →
            l + input.content.length = left + f.content.length) := by
  intro fuel
  induction fuel with
  | zero =>
    intro left input tr l f t h
    simp [update_loop] at h
  | succ fuel ih =>
    intro left input tr l f t h
    have hlen : (input.content.take TPM2_MAX_DIGEST_BUFFER).length
        + (input.content.drop TPM2_MAX_DIGEST_BUFFER).length = input.content.length := by
      rw [← List.length_append, List.take_append_drop]
    have hle : (input.content.take TPM2_MAX_DIGEST_BUFFER).length ≤ TPM2_MAX_DIGEST_BUFFER := by
      rw [List.length_take]; omega
    simp only [update_loop] at h
    split at h
    · cases h
    · split at h
      · cases h
      · next herr hrc =>
        have hrc2 : E.rc (tr ++ [Event.fread (fread TPM2_MAX_DIGEST_BUFFER input).1])
            (Event.Esys_SequenceUpdate (fread TPM2_MAX_DIGEST_BUFFER input).1)
              = TSS2_RC_SUCCESS := not_not.mp hrc
        have hexit : callsSucceeded E tr
            [Event.fread (fread TPM2_MAX_DIGEST_BUFFER input).1,
             Event.Esys_SequenceUpdate (fread TPM2_MAX_DIGEST_BUFFER input).1] = true := by
          simp [callsSucceeded, Event.isRead, hrc2]
        have hstep : ∀ left2,
            update_loop E use_left fuel left2 (fread TPM2_MAX_DIGEST_BUFFER input).2
                (tr ++ [Event.fread (fread TPM2_MAX_DIGEST_BUFFER input).1]
                  ++ [Event.Esys_SequenceUpdate (fread TPM2_MAX_DIGEST_BUFFER input).1])
              = some (Except.ok (l, f, t)) →
            ∃ evs, t = tr ++ evs ∧ completeData evs = [] ∧ callsSucceeded E tr evs = true
              ∧ f.fails = (fread TPM2_MAX_DIGEST_BUFFER input).2.fails
              ∧ (use_left = false → (fread TPM2_MAX_DIGEST_BUFFER input).2.eof = false →
                  (fread TPM2_MAX_DIGEST_BUFFER input).2.fails = false)
              ∧ (use_left = true → TPM2_MAX_DIGEST_BUFFER < left2 →
                  l + (fread TPM2_MAX_DIGEST_BUFFER input).2.content.length
                    = left2 + f.content.length) := by
          intro left2 h2
          obtain ⟨evs, ht, hevs, hcalls, hfails, hunk, hkn⟩ := ih left2 _ _ l f t h2
          refine ⟨Event.fread (fread TPM2_MAX_DIGEST_BUFFER input).1
              :: Event.Esys_SequenceUpdate (fread TPM2_MAX_DIGEST_BUFFER input).1 :: evs,
            by simpa using ht, by simpa [completeData] using hevs, ?_, hfails, hunk, hkn⟩
          simp only [callsSucceeded, Event.isRead, Bool.true_or, Bool.false_or, Bool.true_and,
            hrc2, beq_self_eq_true]
          simpa using hcalls
        split at h
        · next hul =>
          split at h
          · cases h
            refine ⟨[Event.fread (fread TPM2_MAX_DIGEST_BUFFER input).1,
                Event.Esys_SequenceUpdate (fread TPM2_MAX_DIGEST_BUFFER input).1], by simp, rfl,
              hexit, rfl, ?_, ?_⟩
            · intro hf; rw [hul] at hf; cases hf
            · intro _ hbig
              simp only [fread]
              omega
          · next hmore =>
            obtain ⟨evs, ht, hevs, hcalls, hfails, -, hkn⟩ := hstep _ h
            refine ⟨evs, ht, hevs, hcalls, hfails, ?_, ?_⟩
            · intro hf; rw [hul] at hf; cases hf
            · intro _ hbig
              have := hkn hul (by simp only [fread] at hmore ⊢; omega)
              simp only [fread] at this
              omega
        · next hul =>
          have hul2 : use_left = false := by simpa using hul
          split at h
          · next heof =>
            cases h
            refine ⟨[Event.fread (fread TPM2_MAX_DIGEST_BUFFER input).1,
                Event.Esys_SequenceUpdate (fread TPM2_MAX_DIGEST_BUFFER input).1], by simp, rfl,
              hexit, rfl, ?_, ?_⟩
            · intro _ h0
              simp only [fread, h0, Bool.false_or, Bool.and_eq_true, decide_eq_true_eq,
                Bool.not_eq_true'] at heof
              exact heof.2
            · intro hf; rw [hul2] at hf; cases hf
          · next heof =>
            obtain ⟨evs, ht, hevs, hcalls, hfails, hunk, -⟩ := hstep _ h
            refine ⟨evs, ht, hevs, hcalls, hfails, ?_, ?_⟩
            · intro _ _
              have := hunk hul2 (by simpa using heof)
              simpa [fread] using this
            · intro hf; rw [hul2] at hf; cases hf

/-- In a run that goes the streaming way with `Esys_HashSequenceStart` succeeding and that
returns, `Esys_EventSequenceComplete` is either not called at all or called once, as the
last call, after every ESAPI call before it succeeded, a session handle was found and no
read of the input failed. -/
theorem tpm_pcrevent_file_complete_last_after_success {D : Type} (E : Esys D) (fuel : Nat)
    (size : Option Nat) (input : FILE) (o : Outcome D)
    (hsize : ∀ n, size = some n → BUFFER_SIZE_TPM2B_EVENT < n)
    (hstart : E.rc [] Event.Esys_HashSequenceStart = TPM2_RC_SUCCESS)
    (heof : input.eof = false)
    (hrun : tpm_pcrevent_file E fuel size input = some o) :
    completeData o.trace = []
    ∨ (∃ pre data, o.trace = pre ++ [Event.Esys_EventSequenceComplete data]
        ∧ completeData pre = []
        ∧ callsSucceeded E [] pre = true
        ∧ E.shandle1 ≠ ESYS_TR_NONE
        ∧ (size = none → input.fails = false)
        ∧ (∀ n, size = some n → n ≤ input.content.length)) := by
  have hcond : (size.isSome && decide (size.getD 0 ≤ BUFFER_SIZE_TPM2B_EVENT)) = false := by
    cases size with
    | none => rfl
    | some n =>
      have := hsize n rfl
      simp; omega
  simp only [tpm_pcrevent_file, hcond, Bool.false_eq_true, if_false, hstart, ne_eq,
    not_true_eq_false] at hrun
  split at hrun
  · cases hrun
    exact Or.inl rfl
  · next hset =>
    have hset2 : E.rc [Event.Esys_HashSequenceStart] Event.Esys_TR_SetAuth = TSS2_RC_SUCCESS :=
      not_not.mp hset
    split at hrun
    · cases hrun
    · next o2 hloop =>
      obtain ⟨evs, hevs, hres, -⟩ := update_loop_no_complete E _ _ _ _ _ _ hloop
      cases hrun
      simp only [loopTrace] at hres
      left
      rw [hres]
      simp [completeData_append, hevs, completeData]
    · next left input2 tr2 hloop =>
      obtain ⟨evs, ht, hevs, hcalls, hfails, hunk, hkn⟩ :=
        update_loop_ok_facts E _ _ _ _ _ _ _ _ hloop
      subst ht
      have hhead : callsSucceeded E []
          ([Event.Esys_HashSequenceStart] ++ [Event.Esys_TR_SetAuth] ++ evs) = true := by
        have h0 : E.rc [] Event.Esys_HashSequenceStart = TSS2_RC_SUCCESS := hstart
        simp only [List.singleton_append, List.cons_append, List.nil_append, callsSucceeded,
          Event.isRead, Bool.false_or, h0, hset2, beq_self_eq_true, Bool.true_and]
        simpa using hcalls
      have hpre : ∀ more : List Event, completeData more = [] →
          completeData
              (([Event.Esys_HashSequenceStart] ++ [Event.Esys_TR_SetAuth] ++ evs) ++ more)
            = [] := by
        intro more hmore
        simp [completeData_append, hevs, hmore, completeData]
      have hpre0 := hpre [] rfl
      rw [List.append_nil] at hpre0
      cases size with
      | none =>
        have hnofail : input.fails = false := hunk rfl heof
        simp only [Option.isSome_none, Bool.false_and, Bool.false_eq_true, if_false] at hrun
        split at hrun
        · cases hrun
          exact Or.inl hpre0
        · next hsh =>
          split at hrun
          · cases hrun
            exact Or.inr ⟨_, _, rfl, hpre0, hhead, hsh, (fun _ => hnofail),
              (fun n hn => by cases hn)⟩
          · cases hrun
            exact Or.inr ⟨_, _, rfl, hpre0, hhead, hsh, (fun _ => hnofail),
              (fun n hn => by cases hn)⟩
      | some n =>
        have hbig : TPM2_MAX_DIGEST_BUFFER < n := hsize n rfl
        have hrel := hkn rfl hbig
        simp only [Option.isSome_some, Bool.true_and, if_true] at hrun
        split at hrun
        · cases hrun
          exact Or.inl (hpre [_] rfl)
        · next hread =>
          have hread2 : left ≤ input2.content.length := by
            simp only [files_read_bytes, fread, Bool.not_eq_true', decide_eq_false_iff_not,
              not_not, List.length_take] at hread
            omega
          have hcalls2 : callsSucceeded E []
              (([Event.Esys_HashSequenceStart] ++ [Event.Esys_TR_SetAuth] ++ evs)
                ++ [Event.files_read_bytes left (files_read_bytes input2 left).1]) = true := by
            rw [callsSucceeded_append, hhead]
            simp [callsSucceeded, Event.isRead]
          split at hrun
          · cases hrun
            exact Or.inl (hpre [_] rfl)
          · next hsh =>
            have hn : ∀ m, some n = some m → m ≤ input.content.length := by
              intro m hm
              cases hm
              simp only [Option.getD_some] at hrel
              omega
            split at hrun
            · cases hrun
              exact Or.inr ⟨_, _, rfl, hpre [_] rfl, hcalls2, hsh, (fun h => by cases h), hn⟩
            · cases hrun
              exact Or.inr ⟨_, _, rfl, hpre [_] rfl, hcalls2, hsh, (fun h => by cases h), hn⟩

/-- A run that goes the streaming way returns, whatever the TPM answers, when the size is
unknown, and with the size known when the stream ends in an error or holds all but at most
the last 1024 of the announced bytes. -/
theorem tpm_pcrevent_file_streaming_returns {D : Type} (E : Esys D) (fuel : Nat)
    (size : Option Nat) (c : List Nat) (b : Bool)
    (hsize : ∀ n, size = some n → BUFFER_SIZE_TPM2B_EVENT < n)
    (hterm : ∀ n, size = some n → b = true ∨ n ≤ c.length + TPM2_MAX_DIGEST_BUFFER)
    (hfuel : c.length < TPM2_MAX_DIGEST_BUFFER * fuel) :
    ∃ o, tpm_pcrevent_file E fuel size (FILE.fresh c b) = some o := by
  have hcond : (size.isSome && decide (size.getD 0 ≤ BUFFER_SIZE_TPM2B_EVENT)) = false := by
    cases size with
    | none => rfl
    | some n =>
      have := hsize n rfl
      simp; omega
  have hloop : ∃ res, update_loop E size.isSome fuel (size.getD 0) ⟨c, b, false, false⟩
      ([Event.Esys_HashSequenceStart] ++ [Event.Esys_TR_SetAuth]) = some res := by
    cases size with
    | none => exact update_loop_total_unknown E _ b fuel c _ hfuel
    | some n => exact update_loop_total_known E b fuel c n _ hfuel (hterm n rfl)
  obtain ⟨res, hres⟩ := hloop
  simp only [tpm_pcrevent_file, hcond, Bool.false_eq_true, if_false, FILE.fresh]
  split
  · exact ⟨_, rfl⟩
  · split
    · exact ⟨_, rfl⟩
    · rw [hres]
      cases res with
      | error o => exact ⟨o, rfl⟩
      | ok st =>
        obtain ⟨left, input2, tr2⟩ := st
        simp only
        split_ifs <;> exact ⟨_, rfl⟩

/-- With the size known, the calls succeeding and a stream that ends, without error, more
than one buffer before the announced size, the loop is never left. -/
theorem update_loop_short_input_runs_on {D : Type} (E : Esys D)
    (hrc : ∀ tr e, E.rc tr e = TPM2_RC_SUCCESS) :
    ∀ (fuel left : Nat) (c : List Nat) (eof : Bool) (tr : List Event),
      c.length + TPM2_MAX_DIGEST_BUFFER < left →
      update_loop E true fuel left ⟨c, false, eof, false⟩ tr = none := by
  intro fuel
  induction fuel with
  | zero =>
    intro left c eof tr h
    rfl
  | succ fuel ih =>
    intro left c eof tr h
    have hle : (c.take TPM2_MAX_DIGEST_BUFFER).length ≤ c.length := by
      rw [List.length_take]; omega
    have hnot : ¬ left - (c.take TPM2_MAX_DIGEST_BUFFER).length ≤ TPM2_MAX_DIGEST_BUFFER := by
      omega
    simp only [update_loop, fread, hrc, Bool.and_false, Bool.or_false, Bool.false_eq_true,
      if_false, ne_eq, not_true_eq_false, if_true, hnot]
    apply ih
    rw [List.length_drop]
    rw [List.length_take] at hle hnot ⊢
    omega

/-- On an input whose announced size exceeds what the stream holds by more than 1024 bytes,
with the stream ending without error and every call succeeding, `tpm_pcrevent_file` does not
return, whatever the fuel. -/
theorem tpm_pcrevent_file_short_input_never_returns {D : Type} (E : Esys D)
    (hrc : ∀ tr e, E.rc tr e = TPM2_RC_SUCCESS) (n : Nat) (c : List Nat)
    (hshort : c.length + TPM2_MAX_DIGEST_BUFFER < n) (fuel : Nat) :
    tpm_pcrevent_file E fuel (some n) (FILE.fresh c false) = none := by
  have hnot : ¬ n ≤ BUFFER_SIZE_TPM2B_EVENT := by
    simp only [BUFFER_SIZE_TPM2B_EVENT, TPM2_MAX_DIGEST_BUFFER] at *
    omega
  simp only [tpm_pcrevent_file, FILE.fresh, Option.isSome_some, Option.getD_some, hnot,
    decide_False, Bool.and_false, Bool.false_eq_true, if_false, hrc, ne_eq, not_true_eq_false]
  rw [update_loop_short_input_runs_on E hrc fuel n c false _ hshort]

/-- An event other than the last of a trace lies in what precedes the last. -/
theorem event_before_last (p q pre : List Event) (e x : Event)
    (h : p ++ e :: q = pre ++ [x]) (hne : e ≠ x) : ∃ q2, pre = p ++ e :: q2 := by
  rcases List.eq_nil_or_concat q with hq | ⟨q2, y, hq⟩
  · subst hq
    have h2 := List.append_inj' h rfl
    simp only [List.cons.injEq, and_true] at h2
    exact absurd h2.2 hne
  · subst hq
    have h3 : (p ++ e :: q2) ++ [y] = pre ++ [x] := by
      simpa [List.concat_eq_append] using h
    exact ⟨q2, (List.append_inj' h3 rfl).1.symm⟩

/-- No call that failed precedes `Esys_EventSequenceComplete` in a trace whose calls before
it all succeeded. -/
theorem no_failed_call_before_complete {D : Type} (E : Esys D) (tr pre p q : List Event)
    (e : Event) (data : List Nat)
    (htr : tr = pre ++ [Event.Esys_EventSequenceComplete data])
    (hcalls : callsSucceeded E [] pre = true)
    (hp : tr = p ++ e :: q) (hcall : e.isRead = false)
    (hne : e ≠ Event.Esys_EventSequenceComplete data) :
    E.rc p e = TSS2_RC_SUCCESS := by
  obtain ⟨q2, hq2⟩ := event_before_last p q pre e _ (hp.symm.trans htr) hne
  rw [hq2] at hcalls
  simpa using callsSucceeded_at E [] p q2 e hcalls hcall

/-- C12, amended: a run that goes the streaming way with `Esys_HashSequenceStart` succeeding
returns (the size being unknown, or the stream ending in an error or holding all but at most
the last 1024 of the announced bytes) after `Esys_HashSequenceStart` and `Esys_TR_SetAuth`
with at most one call that ends the sequence: `Esys_EventSequenceComplete`, made as the last
call and only after every ESAPI call before it succeeded, a session handle was found and no
read failed.  When `Esys_TR_SetAuth`, an `Esys_SequenceUpdate`, a read or the session-handle
lookup fails, the trace of the run holds no `Esys_EventSequenceComplete`, and there is no
call that aborts or flushes: the sequence is left open.  The same alternative holds of every
run that returns. -/
theorem tpm_pcrevent_file_completes_only_after_success {D : Type} (E : Esys D) (fuel : Nat)
    (size : Option Nat) (c : List Nat) (b : Bool)
    (hsize : ∀ n, size = some n → BUFFER_SIZE_TPM2B_EVENT < n)
    (hstart : E.rc [] Event.Esys_HashSequenceStart = TPM2_RC_SUCCESS)
    (hterm : ∀ n, size = some n → b = true ∨ n ≤ c.length + TPM2_MAX_DIGEST_BUFFER)
    (hfuel : c.length < TPM2_MAX_DIGEST_BUFFER * fuel) :
    (∃ o, tpm_pcrevent_file E fuel size (FILE.fresh c b) = some o
      ∧ (∃ rest, o.trace = Event.Esys_HashSequenceStart :: Event.Esys_TR_SetAuth :: rest)
      ∧ (completeData o.trace = []
        ∨ (∃ pre data, o.trace = pre ++ [Event.Esys_EventSequenceComplete data]
            ∧ completeData pre = []
            ∧ callsSucceeded E [] pre = true
            ∧ E.shandle1 ≠ ESYS_TR_NONE
            ∧ (size = none → b = false)
            ∧ (∀ n, size = some n → n ≤ c.length)))
      ∧ (E.rc [Event.Esys_HashSequenceStart] Event.Esys_TR_SetAuth ≠ TPM2_RC_SUCCESS →
          completeData o.trace = [])
      ∧ (∀ p d q, o.trace = p ++ Event.Esys_SequenceUpdate d :: q →
          E.rc p (Event.Esys_SequenceUpdate d) ≠ TPM2_RC_SUCCESS → completeData o.trace = [])
      ∧ (size = none → b = true → completeData o.trace = [])
      ∧ (∀ n, size = some n → c.length < n → completeData o.trace = [])
      ∧ (E.shandle1 = ESYS_TR_NONE → completeData o.trace = []))
    ∧ (∀ (fuel2 : Nat) (input : FILE) (o : Outcome D), input.eof = false →
        tpm_pcrevent_file E fuel2 size input = some o →
        completeData o.trace = []
        ∨ (∃ pre data, o.trace = pre ++ [Event.Esys_EventSequenceComplete data]
            ∧ completeData pre = []
            ∧ callsSucceeded E [] pre = true
            ∧ E.shandle1 ≠ ESYS_TR_NONE
            ∧ (size = none → input.fails = false)
            ∧ (∀ n, size = some n → n ≤ input.content.length))) := by
  refine ⟨?_, fun fuel2 input o heof hrun =>
    tpm_pcrevent_file_complete_last_after_success E fuel2 size input o hsize hstart heof hrun⟩
  obtain ⟨o, hrun⟩ := tpm_pcrevent_file_streaming_returns E fuel size c b hsize hterm hfuel
  have hfirst := tpm_pcrevent_file_streaming_first_calls E fuel size _ o hsize hstart hrun
  have hD := tpm_pcrevent_file_complete_last_after_success E fuel size _ o hsize hstart rfl hrun
  simp only [FILE.fresh] at hD
  refine ⟨o, hrun, hfirst, hD, ?_, ?_, ?_, ?_, ?_⟩
  · intro hfail
    rcases hD with h | ⟨pre, data, htr, -, hcalls, -, -, -⟩
    · exact h
    · obtain ⟨rest, hrest⟩ := hfirst
      exact absurd (no_failed_call_before_complete E o.trace pre [Event.Esys_HashSequenceStart]
        rest Event.Esys_TR_SetAuth data htr hcalls (by rw [hrest]; rfl) rfl
        (by simp)) hfail
  · intro p d q hp hfail
    rcases hD with h | ⟨pre, data, htr, -, hcalls, -, -, -⟩
    · exact h
    · exact absurd (no_failed_call_before_complete E o.trace pre p q
        (Event.Esys_SequenceUpdate d) data htr hcalls hp rfl (by simp)) hfail
  · intro hnone hb
    rcases hD with h | ⟨pre, data, -, -, -, -, hunk, -⟩
    · exact h
    · rw [hunk hnone] at hb
      cases hb
  · intro n hn hshort
    rcases hD with h | ⟨pre, data, -, -, -, -, -, hkn⟩
    · exact h
    · have := hkn n hn
      omega
  · intro hsh
    rcases hD with h | ⟨pre, data, -, -, -, hsh2, -, -⟩
    · exact h
    · exact absurd hsh hsh2

/-- Witness for the amended C12: a fifo of two bytes with no session handle to be found. -/
theorem tpm_pcrevent_file_completes_only_after_success_witness :
    (∃ o, tpm_pcrevent_file
          { rc := fun _ _ => TSS2_RC_SUCCESS, digests := fun m => m, shandle1 := ESYS_TR_NONE }
          1 none (FILE.fresh [1, 2] false) = some o
      ∧ (∃ rest, o.trace = Event.Esys_HashSequenceStart :: Event.Esys_TR_SetAuth :: rest)
      ∧ completeData o.trace = [])
    ∧ tpm_pcrevent_file
          { rc := fun _ _ => TSS2_RC_SUCCESS, digests := fun m => m, shandle1 := ESYS_TR_NONE }
          1 none (FILE.fresh [1, 2] false)
        = some { rc := Returned.tool_rc_general_error, result := none,
                 trace := [Event.Esys_HashSequenceStart, Event.Esys_TR_SetAuth,
                           Event.fread [1, 2], Event.Esys_SequenceUpdate [1, 2]] } :=
  ⟨(tpm_pcrevent_file_completes_only_after_success
      { rc := fun _ _ => TSS2_RC_SUCCESS, digests := fun m => m, shandle1 := ESYS_TR_NONE }
      1 none [1, 2] false (fun _ h => by cases h) rfl (fun _ h => by cases h)
      (by decide)).1.elim
      (fun o h => ⟨o, h.1, h.2.1, h.2.2.2.2.2.2.2 rfl⟩),
   by decide⟩

end Tpm2Tools
